import Mathlib

/-!
Verification of the pymidscene element-location pipeline.

This file shallowly embeds the coordinate-adapter functions of
`pymidscene/shared/utils.py`, the task cache of
`pymidscene/core/agent/task_cache.py`, and the locate orchestration of
`pymidscene/core/agent/agent.py`, and proves properties about them.

Numbers coming out of JSON model responses are modelled as rationals;
Python `round` (banker's rounding) is modelled exactly on rationals.
Fallible Python code (raising `ValueError` etc.) is modelled with `Except`.
-/

namespace PyMidscene

/-- Python's built-in `round` on a rational value: round half to even. -/
def pyRound (q : ℚ) : ℤ :=
  if q - (⌊q⌋ : ℚ) < 1/2 then ⌊q⌋
  else if 1/2 < q - (⌊q⌋ : ℚ) then ⌊q⌋ + 1
  else if ⌊q⌋ % 2 = 0 then ⌊q⌋ else ⌊q⌋ + 1

theorem pyRound_intCast (n : ℤ) : pyRound (n : ℚ) = n := by
  simp [pyRound]

theorem pyRound_ge_floor (q : ℚ) : ⌊q⌋ ≤ pyRound q := by
  unfold pyRound
  split
  · exact le_refl _
  · split
    · omega
    · split <;> omega

theorem pyRound_le_floor_add_one (q : ℚ) : pyRound q ≤ ⌊q⌋ + 1 := by
  unfold pyRound
  split
  · omega
  · split
    · omega
    · split <;> omega

/-- `pyRound` really rounds to a nearest integer: the distance to the
rounded value is at most 1/2. -/
theorem pyRound_nearest (q : ℚ) : |(pyRound q : ℚ) - q| ≤ 1/2 := by
  have hfl : (⌊q⌋ : ℚ) ≤ q := Int.floor_le q
  have hfu : q < (⌊q⌋ : ℚ) + 1 := Int.lt_floor_add_one q
  rw [abs_le]
  unfold pyRound
  by_cases h1 : q - (⌊q⌋ : ℚ) < 1/2
  · rw [if_pos h1]
    constructor <;> linarith
  · rw [if_neg h1]
    push_neg at h1
    by_cases h2 : (1:ℚ)/2 < q - (⌊q⌋ : ℚ)
    · rw [if_pos h2]
      constructor <;> push_cast <;> linarith
    · rw [if_neg h2]
      push_neg at h2
      have h12 : q - (⌊q⌋ : ℚ) = 1/2 := le_antisymm h2 h1
      split <;> (constructor <;> push_cast <;> linarith)

theorem pyRound_mono {q r : ℚ} (h : q ≤ r) : pyRound q ≤ pyRound r := by
  have hf : ⌊q⌋ ≤ ⌊r⌋ := Int.floor_le_floor h
  rcases lt_or_eq_of_le hf with hlt | heq
  · calc pyRound q ≤ ⌊q⌋ + 1 := pyRound_le_floor_add_one q
      _ ≤ ⌊r⌋ := by omega
      _ ≤ pyRound r := pyRound_ge_floor r
  · have hfrac : q - (⌊q⌋ : ℚ) ≤ r - (⌊r⌋ : ℚ) := by
      rw [heq]; linarith
    unfold pyRound
    by_cases hq1 : q - (⌊q⌋ : ℚ) < 1/2
    · rw [if_pos hq1, heq]
      exact le_trans (le_refl _) (by
        have h1 := pyRound_ge_floor r
        unfold pyRound at h1
        exact h1)
    · rw [if_neg hq1]
      push_neg at hq1
      have hr1 : (1:ℚ)/2 ≤ r - (⌊r⌋ : ℚ) := le_trans hq1 hfrac
      rw [if_neg (not_lt.mpr hr1)]
      by_cases hq2 : (1:ℚ)/2 < q - (⌊q⌋ : ℚ)
      · rw [if_pos hq2]
        have hr2 : (1:ℚ)/2 < r - (⌊r⌋ : ℚ) := lt_of_lt_of_le hq2 hfrac
        rw [if_pos hr2]
        omega
      · rw [if_neg hq2]
        by_cases hr2 : (1:ℚ)/2 < r - (⌊r⌋ : ℚ)
        · rw [if_pos hr2]
          split <;> omega
        · rw [if_neg hr2]
          split <;> split <;> omega

theorem pyRound_nonneg {q : ℚ} (h : 0 ≤ q) : 0 ≤ pyRound q := by
  have h1 := pyRound_ge_floor q
  have h2 : (0:ℤ) ≤ ⌊q⌋ := Int.floor_nonneg.mpr h
  omega

/-! ## Characters and string primitives

Python strings are modelled as `List Char`.  `\s` of Python's `re` module
and `str.strip()`/`str.split()` whitespace is modelled by `isWs`,
`\d` by `Char.isDigit` (the inputs of interest are ASCII). -/

/-- The ASCII whitespace characters matched by Python's `\s` / `str.strip()`. -/
def isWs (c : Char) : Bool :=
  c = ' ' || c = '\t' || c = '\n' || c = '\r' || c = Char.ofNat 11 || c = Char.ofNat 12

/-- A separator character of the regex class `[,\s]`. -/
def isSepC (c : Char) : Bool := c = ',' || isWs c

/-- Numeric value of a list of decimal digit characters (most significant first). -/
def digitsVal (cs : List Char) : ℕ :=
  cs.foldl (fun a c => 10 * a + (c.toNat - 48)) 0

/-- All characters are decimal digits and the list is nonempty. -/
def isDigitRun (cs : List Char) : Bool :=
  !cs.isEmpty && cs.all Char.isDigit

/-- `str.strip()`: drop leading and trailing whitespace. -/
def stripWs (cs : List Char) : List Char :=
  ((cs.dropWhile isWs).reverse.dropWhile isWs).reverse

theorem dropWhile_eq_self_of_all {p : Char → Bool} {cs : List Char}
    (h : ∀ c ∈ cs, p c = false) : cs.dropWhile p = cs := by
  cases cs with
  | nil => rfl
  | cons c rest =>
    rw [List.dropWhile_cons_of_neg]
    simp [h c (by simp)]

theorem stripWs_eq_self {cs : List Char} (h : ∀ c ∈ cs, isWs c = false) :
    stripWs cs = cs := by
  unfold stripWs
  rw [dropWhile_eq_self_of_all h, dropWhile_eq_self_of_all (by
    intro c hc
    exact h c (List.mem_reverse.mp hc)), List.reverse_reverse]

mutual

/-- One half of Python's `re.split(r'[,\s]+', s)`: consume non-separator
characters into the current (reversed) token `acc`. -/
def splitTok (cs : List Char) (acc : List Char) : List (List Char) :=
  match cs with
  | [] => [acc.reverse]
  | c :: rest =>
    if isSepC c then acc.reverse :: splitSkip rest
    else splitTok rest (c :: acc)

/-- The other half of `re.split(r'[,\s]+', s)`: we are inside a separator
run; skip the rest of it. -/
def splitSkip (cs : List Char) : List (List Char) :=
  match cs with
  | [] => [[]]
  | c :: rest =>
    if isSepC c then splitSkip rest
    else splitTok rest [c]

end

/-- Python `re.split(r'[,\s]+', s)` on a character list. -/
def reSplitSeps (cs : List Char) : List (List Char) := splitTok cs []

theorem splitTok_append_of_nonsep {t : List Char} (rest acc : List Char)
    (h : ∀ c ∈ t, isSepC c = false) :
    splitTok (t ++ rest) acc = splitTok rest (t.reverse ++ acc) := by
  induction t generalizing acc with
  | nil => simp
  | cons c t ih =>
    have hc : isSepC c = false := h c (by simp)
    simp only [List.cons_append, splitTok, hc, Bool.false_eq_true, if_false, List.append_eq]
    rw [ih _ (fun d hd => h d (by simp [hd]))]
    simp [List.reverse_cons, List.append_assoc]

/-- Leading-sign handling of Python `float(s)`. -/
def parseSign (s : List Char) : Bool × List Char :=
  match s with
  | [] => (false, [])
  | c :: r =>
    if c = '-' then (true, r)
    else if c = '+' then (false, r)
    else (false, c :: r)

/-- Python `float(s)` (as used on bbox tokens): strip whitespace, optional
sign, a nonempty digit run, optionally followed by `.` and a digit run.
Returns `none` where Python raises `ValueError`. -/
def parseNum (cs : List Char) : Option ℚ :=
  let sgn := parseSign (stripWs cs)
  let s1 := sgn.2
  let intPart := s1.takeWhile Char.isDigit
  let rest := s1.dropWhile Char.isDigit
  if intPart.isEmpty then none
  else
    match rest with
    | [] =>
      let v : ℚ := (digitsVal intPart : ℚ)
      some (if sgn.1 then -v else v)
    | '.' :: fr =>
      if fr.all Char.isDigit then
        let v : ℚ := (digitsVal intPart : ℚ) +
          (digitsVal fr : ℚ) / ((10 : ℚ) ^ fr.length)
        some (if sgn.1 then -v else v)
      else none
    | _ => none

theorem digit_not_ws {c : Char} (hd : c.isDigit = true) : isWs c = false := by
  by_contra hcon
  rw [Bool.not_eq_false] at hcon
  unfold isWs at hcon
  simp only [Bool.or_eq_true, decide_eq_true_eq] at hcon
  rcases hcon with ((((rfl | rfl) | rfl) | rfl) | rfl) | rfl <;>
    exact absurd hd (by decide)

theorem digit_not_sep {c : Char} (hd : c.isDigit = true) : isSepC c = false := by
  unfold isSepC
  rw [digit_not_ws hd]
  simp only [Bool.or_false, decide_eq_false_iff_not]
  intro hc
  subst hc
  exact absurd hd (by decide)

theorem parseNum_digitRun {cs : List Char} (h : isDigitRun cs = true) :
    parseNum cs = some ((digitsVal cs : ℕ) : ℚ) := by
  unfold isDigitRun at h
  simp only [Bool.and_eq_true, List.all_eq_true] at h
  obtain ⟨hne, hall⟩ := h
  have hnw : ∀ c ∈ cs, isWs c = false := fun c hc => digit_not_ws (hall c hc)
  unfold parseNum
  rw [stripWs_eq_self hnw]
  have hcs : ∃ c rest, cs = c :: rest := by
    cases cs with
    | nil => simp at hne
    | cons c rest => exact ⟨c, rest, rfl⟩
  obtain ⟨c, rest, rfl⟩ := hcs
  have hcdig : c.isDigit = true := hall c (by simp)
  have hsgn : parseSign (c :: rest) = (false, c :: rest) := by
    simp only [parseSign]
    rw [if_neg (by intro hc; subst hc; exact absurd hcdig (by decide)),
      if_neg (by intro hc; subst hc; exact absurd hcdig (by decide))]
  rw [hsgn]
  have htake : (c :: rest).takeWhile Char.isDigit = c :: rest :=
    List.takeWhile_eq_self_iff.mpr (by intro a ha; exact hall a ha)
  have hdrop : (c :: rest).dropWhile Char.isDigit = [] :=
    List.dropWhile_eq_nil_iff.mpr (by intro a ha; exact hall a ha)
  simp only [htake, hdrop]
  simp

/-! ## Splitting as by Python `str.split(',')` and `str.split()` -/

/-- Python `s.split(sep)` for a one-character separator: splits at every
occurrence, keeping empty pieces. -/
def splitOnChar (sep : Char) : List Char → List Char → List (List Char)
  | [], acc => [acc.reverse]
  | c :: rest, acc =>
    if c = sep then acc.reverse :: splitOnChar sep rest []
    else splitOnChar sep rest (c :: acc)

mutual

/-- Python `s.split()` (no argument): inside a token. -/
def pySplitTok : List Char → List Char → List (List Char)
  | [], acc => [acc.reverse]
  | c :: rest, acc =>
    if isWs c then acc.reverse :: pySplitSkip rest
    else pySplitTok rest (c :: acc)

/-- Python `s.split()` (no argument): inside a whitespace run (or at the
start); empty pieces are discarded. -/
def pySplitSkip : List Char → List (List Char)
  | [] => []
  | c :: rest =>
    if isWs c then pySplitSkip rest
    else pySplitTok rest [c]

end

/-- Python `s.split()` with no separator argument. -/
def pySplitWs (cs : List Char) : List (List Char) := pySplitSkip cs

/-! ## Bounding-box data model (`pymidscene/shared/utils.py`)

A raw bbox from a model response is `Union[List, str]` in the source, where
list items are numbers or strings; `PyBbox.nested` stands for a singly
nested array `[[...]]`. Python exceptions are modelled by `PyErr`. -/

inductive PyVal
  | num (q : ℚ)
  | str (s : List Char)
deriving DecidableEq

inductive PyBbox
  | arr (items : List PyVal)
  | nested (inner : List PyVal)
  | str (s : List Char)
deriving DecidableEq

inductive PyErr
  | valueError
  | typeError
  | indexError
  | assertionError
deriving DecidableEq

/-- An adapted bbox `(x1, y1, x2, y2)` in pixel coordinates. -/
abbrev Bbox4 := ℤ × ℤ × ℤ × ℤ

/-- `Rect` as produced by `format_bbox`. -/
structure Rect where
  left : ℚ
  top : ℚ
  width : ℚ
  height : ℚ
deriving DecidableEq

/-- `DEFAULT_BBOX_SIZE` of `shared/utils.py`. -/
def DEFAULT_BBOX_SIZE : ℤ := 20

/-- `normalize_bbox_input`: unwrap a singly-nested array. -/
def normalize_bbox_input : PyBbox → PyBbox
  | .arr items => .arr items
  | .nested inner => .arr inner
  | .str s => .str s

/-- `is_ui_tars` of `shared/utils.py`. -/
def is_ui_tars (modelFamily : Option String) : Bool :=
  modelFamily = some "vlm-ui-tars" ||
  modelFamily = some "vlm-ui-tars-doubao" ||
  modelFamily = some "vlm-ui-tars-doubao-1.5"

/-- `round(v * dim / 1000)` — one scaled coordinate. -/
def scale1000 (v : ℚ) (dim : ℕ) : ℤ := pyRound (v * dim / 1000)

/-- Python `float(tok)` for a string token, `ValueError` on failure. -/
def floatOfToken (p : List Char) : Except PyErr ℚ :=
  match parseNum p with
  | some q => .ok q
  | none => .error .valueError

/-- Python `float(x)` for a bbox list item. -/
def floatOfVal : PyVal → Except PyErr ℚ
  | .num q => .ok q
  | .str s => floatOfToken s

/-- The item flattening done on list input by `adapt_doubao_bbox`:
items that are strings are split on `','` or whitespace and each part is
`float`-converted. -/
def doubaoItemFloats : PyVal → Except PyErr (List ℚ)
  | .num q => .ok [q]
  | .str s =>
    let s' := stripWs s
    if s'.contains ',' then
      (splitOnChar ',' s' []).mapM floatOfToken
    else if s'.contains ' ' then
      (pySplitWs s').mapM floatOfToken
    else do
      let q ← floatOfToken s'
      pure [q]

/-- Greedy matcher for one `\d+` group: value and remaining input. -/
def takeIntTok (cs : List Char) : Option (ℕ × List Char) :=
  let d := cs.takeWhile Char.isDigit
  if d.isEmpty then none
  else some (digitsVal d, cs.dropWhile Char.isDigit)

/-- Matcher for a single `\s`. -/
def oneWs : List Char → Option (List Char)
  | [] => none
  | c :: r => if isWs c then some r else none

/-- The anchored regex `^(\d+)\s(\d+)\s(\d+)\s(\d+)$` used by
`adapt_doubao_bbox` on string input, returning the four integers (the
source re-splits the matched string; the numbers are identical). -/
def matchDoubaoStr (cs : List Char) : Option (ℕ × ℕ × ℕ × ℕ) := do
  let (n1, r1) ← takeIntTok cs
  let r1b ← oneWs r1
  let (n2, r2) ← takeIntTok r1b
  let r2b ← oneWs r2
  let (n3, r3) ← takeIntTok r2b
  let r3b ← oneWs r3
  let (n4, r4) ← takeIntTok r3b
  if r4.isEmpty then some (n1, n2, n3, n4) else none

/-- Arity dispatch of `adapt_doubao_bbox` once a numeric list is built. -/
def adaptDoubaoList (bl : List ℚ) (width height : ℕ) : Except PyErr Bbox4 :=
  match bl with
  | [b0, b1, b2, b3] =>
    .ok (scale1000 b0 width, scale1000 b1 height, scale1000 b2 width, scale1000 b3 height)
  | [b0, b1, b2, b3, _] =>
    .ok (scale1000 b0 width, scale1000 b1 height, scale1000 b2 width, scale1000 b3 height)
  | [b0, b1] => centerBox b0 b1
  | [b0, b1, _] => centerBox b0 b1
  | [b0, b1, _, _, _, _] => centerBox b0 b1
  | [b0, b1, _, _, _, _, _] => centerBox b0 b1
  | [b0, b1, _, _, b4, b5, _, _] =>
    .ok (scale1000 b0 width, scale1000 b1 height, scale1000 b4 width, scale1000 b5 height)
  | _ => .error .valueError
where
  centerBox (b0 b1 : ℚ) : Except PyErr Bbox4 :=
    let halfSize := DEFAULT_BBOX_SIZE / 2
    let cx := scale1000 b0 width
    let cy := scale1000 b1 height
    .ok (max 0 (cx - halfSize), max 0 (cy - halfSize),
         min (width : ℤ) (cx + halfSize), min (height : ℤ) (cy + halfSize))

/-- `adapt_doubao_bbox` of `shared/utils.py`. -/
def adapt_doubao_bbox (bbox : PyBbox) (width height : ℕ) : Except PyErr Bbox4 :=
  if width = 0 ∨ height = 0 then .error .assertionError
  else
    match bbox with
    | .str s =>
      match matchDoubaoStr (stripWs s) with
      | some (n1, n2, n3, n4) =>
        .ok (scale1000 n1 width, scale1000 n2 height,
             scale1000 n3 width, scale1000 n4 height)
      | none => .error .valueError
    | .arr items => do
      let parts ← items.mapM doubaoItemFloats
      adaptDoubaoList parts.flatten width height
    | .nested _ => .error .typeError

/-- `adapt_qwen2_5_bbox` of `shared/utils.py` (absolute pixel input). -/
def adapt_qwen2_5_bbox (bl : List ℚ) : Except PyErr Bbox4 :=
  match bl with
  | [] => .error .valueError
  | [_] => .error .valueError
  | [b0, b1] =>
    .ok (pyRound b0, pyRound b1, pyRound (b0 + 20), pyRound (b1 + 20))
  | [b0, b1, b2] =>
    .ok (pyRound b0, pyRound b1, pyRound b2, pyRound (b1 + 20))
  | b0 :: b1 :: b2 :: b3 :: _ =>
    .ok (pyRound b0, pyRound b1, pyRound b2, pyRound b3)

/-- `adapt_gemini_bbox` of `shared/utils.py`: input order `[y1,x1,y2,x2]`,
normalized to 0–1000; indexing raises when fewer than 4 numbers. -/
def adapt_gemini_bbox (bl : List ℚ) (width height : ℕ) : Except PyErr Bbox4 :=
  match bl with
  | b0 :: b1 :: b2 :: b3 :: _ =>
    .ok (scale1000 b1 width, scale1000 b0 height, scale1000 b3 width, scale1000 b2 height)
  | _ => .error .indexError

/-- `normalized_0_1000` of `shared/utils.py` (default decoding). -/
def normalized_0_1000 (bl : List ℚ) (width height : ℕ) : Except PyErr Bbox4 :=
  match bl with
  | b0 :: b1 :: b2 :: b3 :: _ =>
    .ok (scale1000 b0 width, scale1000 b1 height, scale1000 b2 width, scale1000 b3 height)
  | _ => .error .indexError

/-- The default branch of `adapt_bbox` passes list items unconverted to
`normalized_0_1000`; a string item there is a Python `TypeError`. -/
def numOfVal : PyVal → Except PyErr ℚ
  | .num q => .ok q
  | .str _ => .error .typeError

/-- `adapt_bbox` of `shared/utils.py`: normalize, dispatch on the model
family, then clamp `x2`/`y2` to the right/bottom limits. -/
def adapt_bbox (bbox : PyBbox) (width height : ℕ)
    (rightLimit bottomLimit : Option ℤ) (modelFamily : Option String) :
    Except PyErr Bbox4 := do
  let rl := rightLimit.getD (width : ℤ)
  let bl := bottomLimit.getD (height : ℤ)
  let nb := normalize_bbox_input bbox
  let result ←
    if modelFamily = some "doubao-vision" || is_ui_tars modelFamily then
      adapt_doubao_bbox nb width height
    else if modelFamily = some "gemini" then
      match nb with
      | .str s => do
        let fl ← (reSplitSeps (stripWs s)).mapM floatOfToken
        adapt_gemini_bbox fl width height
      | .arr items => do
        let fl ← items.mapM floatOfVal
        adapt_gemini_bbox fl width height
      | .nested _ => .error .typeError
    else if modelFamily = some "qwen2.5-vl" then
      match nb with
      | .str s => do
        let fl ← (reSplitSeps (stripWs s)).mapM floatOfToken
        adapt_qwen2_5_bbox fl
      | .arr items => do
        let fl ← items.mapM floatOfVal
        adapt_qwen2_5_bbox fl
      | .nested _ => .error .typeError
    else
      match nb with
      | .str s =>
        let parts := reSplitSeps (stripWs s)
        if parts.length = 4 then do
          let fl ← parts.mapM floatOfToken
          normalized_0_1000 fl width height
        else .error .valueError
      | .arr items =>
        if items.length ≥ 4 then do
          let fl ← items.mapM numOfVal
          normalized_0_1000 fl width height
        else .error .valueError
      | .nested _ => .error .typeError
  .ok (result.1, result.2.1, min result.2.2.1 rl, min result.2.2.2 bl)

/-- `format_bbox` of `shared/utils.py` applied to an adapted 4-tuple. -/
def format_bbox (b : Bbox4) : Rect :=
  ⟨(b.1 : ℚ), (b.2.1 : ℚ), ((b.2.2.1 - b.1 : ℤ) : ℚ), ((b.2.2.2 - b.2.1 : ℤ) : ℚ)⟩

/-- `calculate_center` of `shared/utils.py`. -/
def calculate_center (r : Rect) : ℚ × ℚ :=
  (r.left + r.width / 2, r.top + r.height / 2)

/-! ## Task cache (`pymidscene/core/agent/task_cache.py`)

Prompts are modelled by their comparison string (`prompt` itself for
strings, the sorted-key JSON serialization for dict prompts): `match_cache`
only ever compares these strings.  The cache file is modelled structurally
as the document written by `_flush_cache_to_file`. -/

inductive PyCacheType
  | plan
  | locate
deriving DecidableEq

/-- A cache record: `PlanningCache` or `LocateCache`.  The `locate` variant
stores the optional `cache` dict, reduced to its `xpaths` list. -/
inductive CEntry
  | plan (prompt : String) (yamlWorkflow : String)
  | locate (prompt : String) (cache : Option (List String))
deriving DecidableEq

def CEntry.ctype : CEntry → PyCacheType
  | .plan _ _ => .plan
  | .locate _ _ => .locate

def CEntry.promptStr : CEntry → String
  | .plan p _ => p
  | .locate p _ => p

/-- The in-memory state of a `TaskCache` object. -/
structure TaskCache where
  caches : List CEntry
  cacheOriginalLength : ℕ
  matchedCacheIndices : List (PyCacheType × String × ℕ)
  isCacheResultUsed : Bool
  readOnlyMode : Bool
  writeOnlyMode : Bool
  midsceneVersion : String
  cacheId : String
deriving DecidableEq

/-- The loop condition of `match_cache` at index `i`: type and prompt
match and the key `f"{cache_type}:{prompt}:{i}"` (modelled as the
injective triple) is not yet consumed. -/
def matchPred (tc : TaskCache) (t : PyCacheType) (p : String) (i : ℕ) : Bool :=
  match tc.caches[i]? with
  | some e => e.ctype = t && e.promptStr = p && !tc.matchedCacheIndices.contains (t, p, i)
  | none => false

/-- `TaskCache.match_cache`: linear scan over the first
`cache_original_length` records; on a hit the key is added to the
consumption ledger.  Returns the matched index and record. -/
def match_cache (tc : TaskCache) (p : String) (t : PyCacheType) :
    Option (ℕ × CEntry) × TaskCache :=
  if !tc.isCacheResultUsed then (none, tc)
  else
    match (List.range tc.cacheOriginalLength).find? (matchPred tc t p) with
    | some i =>
      match tc.caches[i]? with
      | some e =>
        (some (i, e), { tc with matchedCacheIndices := (t, p, i) :: tc.matchedCacheIndices })
      | none => (none, tc)
    | none => (none, tc)

/-- The document written to the cache file by `_flush_cache_to_file`
(whole-file rewrite, `clean_unused=False`). -/
structure CacheFileDoc where
  midsceneVersion : String
  cacheId : String
  caches : List CEntry
deriving DecidableEq

def flushDoc (tc : TaskCache) : CacheFileDoc :=
  ⟨tc.midsceneVersion, tc.cacheId, tc.caches⟩

/-- `TaskCache.append_cache` together with its effect on the cache file
(modelled as explicit state): appends in memory, and rewrites the whole
file unless in read-only mode. -/
def append_cache (tc : TaskCache) (e : CEntry) (file : Option CacheFileDoc) :
    TaskCache × Option CacheFileDoc :=
  let tc' := { tc with caches := tc.caches ++ [e] }
  if tc'.readOnlyMode then (tc', file)
  else (tc', some (flushDoc tc'))

/-! ## Locate orchestration (`pymidscene/core/agent/agent.py`)

`Agent.ai_locate` is modelled against stubbed collaborators: the cache
lookup result, the device's XPath resolver and viewport size, and the
parsed model response.  Side channels with no influence on the result
(recorders, logging, the best-effort cache write) are not modelled.
The observable steps are recorded as a list of events. -/

inductive LEvent
  | cacheResolve (found : Bool)
  | modelCall
  | scrollEv
deriving DecidableEq

structure ElemInfo where
  rect : Rect
  center : ℚ × ℚ
deriving DecidableEq

inductive LocOutcome
  | found (e : ElemInfo)
  | notFound
  | raised (err : PyErr)
deriving DecidableEq

/-- The collaborators of one `ai_locate` call:
`cacheResult` is the value of `match_locate_cache` (`some (some xs)` = a
hit whose `cache` dict has an `xpaths` list `xs`); `resolveXpath` is
`interface.get_element_by_xpath`; `responseBbox` is the `bbox` field of
the parsed model response (`none` = unparseable response or no `bbox`
key). -/
structure LocateEnv where
  cacheResult : Option (Option (List String))
  resolveXpath : String → Option ElemInfo
  size : ℕ × ℕ
  responseBbox : Option PyBbox
  modelFamily : Option String

/-- The guard `not bbox or (isinstance(bbox, list) and len(bbox) < 2)`
in `ai_locate` (a singly-nested array is a list of length 1). -/
def invalidBboxGuard : PyBbox → Bool
  | .arr items => items.length < 2
  | .nested _ => true
  | .str s => s.isEmpty

def subNums : PyVal → PyVal → Except PyErr ℚ
  | .num a, .num b => .ok (a - b)
  | _, _ => .error .typeError

/-- `format_bbox` applied to the raw fallback value
(`tuple(bbox) if isinstance(bbox, list) else bbox`) after `adapt_bbox`
raised: `float()` of each element, subtractions of possibly non-numeric
values, `ValueError` when the length is not 4. -/
def format_bbox_fallback : PyBbox → Except PyErr Rect
  | .arr vals =>
    match vals with
    | [v0, v1, v2, v3] => do
      let l ← floatOfVal v0
      let t ← floatOfVal v1
      let w ← subNums v2 v0
      let h ← subNums v3 v1
      .ok ⟨l, t, w, h⟩
    | _ => .error .valueError
  | .nested _ => .error .valueError
  | .str s =>
    match s with
    | [c0, c1, _, _] => do
      let _ ← floatOfToken [c0]
      let _ ← floatOfToken [c1]
      .error .typeError
    | _ => .error .valueError

/-- The screenshot / model-call / parse / adapt part of `ai_locate`
(everything after the cache branch). -/
def modelLocate (env : LocateEnv) (pre : List LEvent) : LocOutcome × List LEvent :=
  let evs := pre ++ [LEvent.modelCall]
  match env.responseBbox with
  | none => (.notFound, evs)
  | some bbox =>
    if invalidBboxGuard bbox then (.notFound, evs)
    else
      let w := env.size.1
      let h := env.size.2
      let fam := some (env.modelFamily.getD "qwen2.5-vl")
      match adapt_bbox bbox w h (some (w : ℤ)) (some (h : ℤ)) fam with
      | .ok t =>
        let rect := format_bbox t
        (.found ⟨rect, calculate_center rect⟩, evs)
      | .error _ =>
        match format_bbox_fallback bbox with
        | .ok rect => (.found ⟨rect, calculate_center rect⟩, evs)
        | .error e => (.raised e, evs)

/-- `Agent.ai_locate`: try the cached XPath first (only when `use_cache`),
fall through to a model call when there is no usable hit or the XPath no
longer resolves. -/
def ai_locate (env : LocateEnv) (useCache : Bool) : LocOutcome × List LEvent :=
  match (if useCache then env.cacheResult else none) with
  | some (some (x :: _)) =>
    match env.resolveXpath x with
    | some info => (.found info, [.cacheResolve true])
    | none => modelLocate env [.cacheResolve false]
  | _ => modelLocate env []

/-- The loop body of `Agent.ai_locate_with_scroll_retry`: `attempt` is the
current index, `remaining` the number of attempts left; the cache is used
only on attempt 0; a scroll happens between failed attempts. -/
def scrollRetryAux (env : ℕ → LocateEnv) (useCache : Bool) :
    ℕ → ℕ → LocOutcome × List LEvent
  | _, 0 => (.notFound, [])
  | attempt, remaining + 1 =>
    let r := ai_locate (env attempt) (useCache && attempt == 0)
    match r.1 with
    | .found e => (.found e, r.2)
    | .raised err => (.raised err, r.2)
    | .notFound =>
      if remaining > 0 then
        let rest := scrollRetryAux env useCache (attempt + 1) remaining
        (rest.1, r.2 ++ LEvent.scrollEv :: rest.2)
      else (.notFound, r.2)

/-- `Agent.ai_locate_with_scroll_retry`. -/
def ai_locate_with_scroll_retry (env : ℕ → LocateEnv) (useCache : Bool)
    (maxScrollAttempts : ℕ) : LocOutcome × List LEvent :=
  scrollRetryAux env useCache 0 maxScrollAttempts

/-! ## `preprocess_doubao_bbox_json` (`shared/utils.py`)

`while re.search(r'\d+\s+\d+', s): s = re.sub(r'(\d+)\s+(\d+)', r'\1,\2', s)`
guarded by `'bbox' in s`.  One `re.sub` pass is `subPass`; the `while`
loop runs at most `wsCount` times because every pass that replaces
something removes at least one whitespace character, so it is modelled
with that fuel. -/

/-- Substring test, Python `pat in s`. -/
def containsSeq (pat : List Char) : List Char → Bool
  | [] => pat.isEmpty
  | c :: rest => pat.isPrefixOf (c :: rest) || containsSeq pat rest

/-- `\s+\d` at the start of the input: a nonempty whitespace run followed
by a digit. -/
def wsPlusDigit : List Char → Bool
  | [] => false
  | c :: rest =>
    isWs c && ((match rest with | d :: _ => d.isDigit | [] => false) || wsPlusDigit rest)

/-- `re.search(r'\d+\s+\d+', s)` succeeds: somewhere a digit is followed
by a whitespace run and another digit. -/
def hasDigitWsDigit : List Char → Bool
  | [] => false
  | c :: rest => (c.isDigit && wsPlusDigit rest) || hasDigitWsDigit rest

/-- Number of whitespace characters (the termination measure of the
substitution loop). -/
def wsCount (cs : List Char) : ℕ := (cs.filter isWs).length

theorem lenDropWhile_le (p : Char → Bool) (l : List Char) :
    (l.dropWhile p).length ≤ l.length := by
  induction l with
  | nil => simp
  | cons c rest ih =>
    by_cases h : p c
    · rw [List.dropWhile_cons_of_pos h]
      exact le_trans ih (by simp)
    · rw [List.dropWhile_cons_of_neg h]

/-- One pass of `re.sub(r'(\d+)\s+(\d+)', r'\1,\2', s)`: replace each
leftmost non-overlapping match, scanning left to right. -/
def subPass : List Char → List Char
  | [] => []
  | c :: rest =>
    if hd : c.isDigit then
      let d1 := (c :: rest).takeWhile Char.isDigit
      let r1 := (c :: rest).dropWhile Char.isDigit
      let ws := r1.takeWhile isWs
      let r2 := r1.dropWhile isWs
      if ws.isEmpty then d1 ++ subPass r1
      else
        match r2 with
        | d :: _ =>
          if d.isDigit then
            d1 ++ ',' :: (r2.takeWhile Char.isDigit ++ subPass (r2.dropWhile Char.isDigit))
          else d1 ++ ws ++ subPass r2
        | [] => d1 ++ ws
    else c :: subPass rest
  termination_by cs => cs.length
  decreasing_by
  · simp only [List.dropWhile_cons_of_pos hd, List.length_cons]
    exact Nat.lt_succ_of_le (lenDropWhile_le _ _)
  · simp only [List.dropWhile_cons_of_pos hd, List.length_cons]
    exact Nat.lt_succ_of_le (le_trans (lenDropWhile_le _ _)
      (le_trans (lenDropWhile_le _ _) (lenDropWhile_le _ _)))
  · simp only [List.dropWhile_cons_of_pos hd, List.length_cons]
    exact Nat.lt_succ_of_le (le_trans (lenDropWhile_le _ _) (lenDropWhile_le _ _))
  · simp only [List.length_cons]
    exact Nat.lt_succ_of_le (le_refl _)

/-- The `while` loop with explicit fuel. -/
def subLoopN : ℕ → List Char → List Char
  | 0, cs => cs
  | n + 1, cs => if hasDigitWsDigit cs then subLoopN n (subPass cs) else cs

/-- `preprocess_doubao_bbox_json` of `shared/utils.py`. -/
def preprocess_doubao_bbox_json (s : List Char) : List Char :=
  if containsSeq "bbox".data s then subLoopN (wsCount s + 1) s else s

instance {ε α : Type} [DecidableEq ε] [DecidableEq α] : DecidableEq (Except ε α) :=
  fun x y =>
    match x, y with
    | .ok a, .ok b =>
      if h : a = b then .isTrue (by rw [h])
      else .isFalse (fun hc => h (by injection hc))
    | .error a, .error b =>
      if h : a = b then .isTrue (by rw [h])
      else .isFalse (fun hc => h (by injection hc))
    | .ok _, .error _ => .isFalse (fun hc => by injection hc)
    | .error _, .ok _ => .isFalse (fun hc => by injection hc)

/-! ## General facts about the adapters -/

theorem adapt_doubao_bbox_arr4 (b0 b1 b2 b3 : ℚ) (w h : ℕ)
    (hw : 0 < w) (hh : 0 < h) :
    adapt_doubao_bbox (.arr [.num b0, .num b1, .num b2, .num b3]) w h =
      .ok (scale1000 b0 w, scale1000 b1 h, scale1000 b2 w, scale1000 b3 h) := by
  unfold adapt_doubao_bbox
  rw [if_neg (by omega)]
  rfl

theorem adapt_bbox_doubao_arr4' (b0 b1 b2 b3 : ℚ) (w h : ℕ)
    (hw : 0 < w) (hh : 0 < h) (mf : Option String)
    (hd : (mf = some "doubao-vision" || is_ui_tars mf) = true) :
    adapt_bbox (.arr [.num b0, .num b1, .num b2, .num b3]) w h none none mf =
      .ok (scale1000 b0 w, scale1000 b1 h,
           min (scale1000 b2 w) (w : ℤ), min (scale1000 b3 h) (h : ℤ)) := by
  unfold adapt_bbox
  simp only [Option.getD_none, normalize_bbox_input]
  rw [if_pos hd]
  rw [adapt_doubao_bbox_arr4 b0 b1 b2 b3 w h hw hh]
  rfl

theorem adapt_bbox_doubao_arr4 (b0 b1 b2 b3 : ℚ) (w h : ℕ)
    (hw : 0 < w) (hh : 0 < h) :
    adapt_bbox (.arr [.num b0, .num b1, .num b2, .num b3]) w h none none
      (some "doubao-vision") =
      .ok (scale1000 b0 w, scale1000 b1 h,
           min (scale1000 b2 w) (w : ℤ), min (scale1000 b3 h) (h : ℤ)) :=
  adapt_bbox_doubao_arr4' b0 b1 b2 b3 w h hw hh _ (by decide)

theorem adapt_bbox_gemini_arr4 (b0 b1 b2 b3 : ℚ) (w h : ℕ) :
    adapt_bbox (.arr [.num b0, .num b1, .num b2, .num b3]) w h none none
      (some "gemini") =
      .ok (scale1000 b1 w, scale1000 b0 h,
           min (scale1000 b3 w) (w : ℤ), min (scale1000 b2 h) (h : ℤ)) := by
  unfold adapt_bbox
  simp only [Option.getD_none, normalize_bbox_input]
  rw [if_neg (by decide), if_pos (by decide)]
  rfl

theorem adapt_bbox_qwen_arr4 (b0 b1 b2 b3 : ℚ) (w h : ℕ) :
    adapt_bbox (.arr [.num b0, .num b1, .num b2, .num b3]) w h none none
      (some "qwen2.5-vl") =
      .ok (pyRound b0, pyRound b1,
           min (pyRound b2) (w : ℤ), min (pyRound b3) (h : ℤ)) := by
  unfold adapt_bbox
  simp only [Option.getD_none, normalize_bbox_input]
  rw [if_neg (by decide), if_neg (by decide), if_pos (by decide)]
  rfl

/-- A model family handled by the default (`normalized_0_1000`) branch of
`adapt_bbox`. -/
def isDefaultFamily (mf : Option String) : Bool :=
  !(mf = some "doubao-vision" || is_ui_tars mf ||
    mf = some "gemini" || mf = some "qwen2.5-vl")

theorem adapt_bbox_default_arr4 (b0 b1 b2 b3 : ℚ) (w h : ℕ)
    (mf : Option String) (hmf : isDefaultFamily mf = true) :
    adapt_bbox (.arr [.num b0, .num b1, .num b2, .num b3]) w h none none mf =
      .ok (scale1000 b0 w, scale1000 b1 h,
           min (scale1000 b2 w) (w : ℤ), min (scale1000 b3 h) (h : ℤ)) := by
  unfold isDefaultFamily at hmf
  simp only [Bool.not_eq_true', Bool.or_eq_false_iff, decide_eq_false_iff_not] at hmf
  obtain ⟨⟨⟨h1, h2⟩, h3⟩, h4⟩ := hmf
  unfold adapt_bbox
  simp only [Option.getD_none, normalize_bbox_input]
  rw [if_neg (by simp [h1, h2]), if_neg (by simp [h3]), if_neg (by simp [h4]),
    if_pos (by simp)]
  rfl

theorem adapt_bbox_doubao_center2 (b0 b1 : ℚ) (w h : ℕ)
    (hw : 0 < w) (hh : 0 < h) :
    adapt_bbox (.arr [.num b0, .num b1]) w h none none (some "doubao-vision") =
      .ok (max 0 (scale1000 b0 w - 10), max 0 (scale1000 b1 h - 10),
           min (min (w : ℤ) (scale1000 b0 w + 10)) (w : ℤ),
           min (min (h : ℤ) (scale1000 b1 h + 10)) (h : ℤ)) := by
  unfold adapt_bbox
  simp only [Option.getD_none, normalize_bbox_input]
  rw [if_pos (by decide)]
  unfold adapt_doubao_bbox
  rw [if_neg (by omega)]
  rfl

/-! ## Claim C1 -/

/-- C1: for every 4-number bounding box under the doubao-vision family
with image width `w > 0` and height `h > 0`, the adapter scales each
coordinate by the corresponding dimension divided by 1000 and rounds to
the nearest integer (banker's rounding; `v`/`d` witness the
nearest-integer property of the shared rounding step); in particular
`bbox=[500,300,700,400]`, `width=1920`, `height=1080` yields, through
`adapt_bbox` and `format_bbox`, the rect
`left=960, top=324, width=384, height=108`. -/
theorem claimC1_doubao_scale_round (b0 b1 b2 b3 v : ℚ) (d w h : ℕ)
    (hw : 0 < w) (hh : 0 < h) :
    adapt_doubao_bbox (.arr [.num b0, .num b1, .num b2, .num b3]) w h =
      .ok (scale1000 b0 w, scale1000 b1 h, scale1000 b2 w, scale1000 b3 h) ∧
    |((scale1000 v d : ℤ) : ℚ) - v * d / 1000| ≤ 1/2 ∧
    (adapt_bbox (.arr [.num 500, .num 300, .num 700, .num 400]) 1920 1080
      none none (some "doubao-vision")).map format_bbox =
      .ok ⟨960, 324, 384, 108⟩ := by
  refine ⟨adapt_doubao_bbox_arr4 b0 b1 b2 b3 w h hw hh, pyRound_nearest _, ?_⟩
  rw [adapt_bbox_doubao_arr4 500 300 700 400 1920 1080 (by norm_num) (by norm_num)]
  show Except.ok (format_bbox _) = _
  norm_num [scale1000, pyRound, format_bbox, min_def]

/-- Witness for C1 at `bbox=[500,300,700,400]`, `w=1920`, `h=1080`. -/
theorem claimC1_witness :
    adapt_doubao_bbox (.arr [.num 500, .num 300, .num 700, .num 400]) 1920 1080 =
      .ok (scale1000 500 1920, scale1000 300 1080,
           scale1000 700 1920, scale1000 400 1080) ∧
    |((scale1000 500 1920 : ℤ) : ℚ) - 500 * 1920 / 1000| ≤ 1/2 ∧
    (adapt_bbox (.arr [.num 500, .num 300, .num 700, .num 400]) 1920 1080
      none none (some "doubao-vision")).map format_bbox =
      .ok ⟨960, 324, 384, 108⟩ :=
  claimC1_doubao_scale_round 500 300 700 400 500 1920 1920 1080
    (by decide) (by decide)

/-! ## Claim C2 -/

/-- C2 as stated is false: the gemini box `[100,200,300,400]` at
`1000×1000` adapts to the pixel box `(x1,y1,x2,y2) = (200,100,400,300)`,
i.e. the rect `left=200, top=100, width=200, height=200`, not
`width=100, height=300` as claimed. -/
theorem claimC2_counterexample :
    (adapt_bbox (.arr [.num 100, .num 200, .num 300, .num 400]) 1000 1000
      none none (some "gemini")).map format_bbox = .ok ⟨200, 100, 200, 200⟩ ∧
    (adapt_bbox (.arr [.num 100, .num 200, .num 300, .num 400]) 1000 1000
      none none (some "gemini")).map format_bbox ≠ .ok ⟨200, 100, 100, 300⟩ := by
  have h : (adapt_bbox (.arr [.num 100, .num 200, .num 300, .num 400]) 1000 1000
      none none (some "gemini")).map format_bbox = .ok ⟨200, 100, 200, 200⟩ := by
    rw [adapt_bbox_gemini_arr4 100 200 300 400 1000 1000]
    show Except.ok (format_bbox _) = _
    norm_num [scale1000, pyRound, format_bbox, min_def]
  refine ⟨h, ?_⟩
  rw [h]
  intro hc
  injection hc with hc2
  have : (200 : ℚ) = 100 := congrArg Rect.width hc2
  norm_num at this

/-- C2 amended: for the gemini family, the box `[100,200,300,400]`
(`[y1,x1,y2,x2]`) with `width=1000`, `height=1000` adapts to the rect
`left=200, top=100, width=200, height=200`. -/
theorem claimC2_gemini_example :
    (adapt_bbox (.arr [.num 100, .num 200, .num 300, .num 400]) 1000 1000
      none none (some "gemini")).map format_bbox = .ok ⟨200, 100, 200, 200⟩ := by
  rw [adapt_bbox_gemini_arr4 100 200 300 400 1000 1000]
  show Except.ok (format_bbox _) = _
  norm_num [scale1000, pyRound, format_bbox, min_def]

/-! ## Finding the first matching index -/

theorem find?_range'_eq_some {p : ℕ → Bool} :
    ∀ (n s i : ℕ), s ≤ i → i < s + n → p i = true →
      (∀ j, s ≤ j → j < i → p j = false) →
      (List.range' s n).find? p = some i := by
  intro n
  induction n with
  | zero => omega
  | succ m ih =>
    intro s i hsi hin hpi hmin
    rw [show List.range' s (m+1) = s :: List.range' (s+1) m from rfl]
    rcases Nat.eq_or_lt_of_le hsi with heq | hlt
    · subst heq
      exact List.find?_cons_of_pos _ hpi
    · rw [List.find?_cons_of_neg _ (by simp [hmin s (le_refl s) hlt])]
      exact ih (s+1) i hlt (by omega) hpi (fun j h1 h2 => hmin j (by omega) h2)

theorem find?_range'_eq_none {p : ℕ → Bool} :
    ∀ (n s : ℕ), (∀ j, s ≤ j → j < s + n → p j = false) →
      (List.range' s n).find? p = none := by
  intro n
  induction n with
  | zero => intro s _; rfl
  | succ m ih =>
    intro s h
    rw [show List.range' s (m+1) = s :: List.range' (s+1) m from rfl]
    rw [List.find?_cons_of_neg _ (by simp [h s (le_refl s) (by omega)])]
    exact ih (s+1) (fun j h1 h2 => h j (by omega) (by omega))

theorem find?_range_eq_some {p : ℕ → Bool} {n i : ℕ} (hin : i < n)
    (hpi : p i = true) (hmin : ∀ j, j < i → p j = false) :
    (List.range n).find? p = some i := by
  rw [List.range_eq_range' n]
  exact find?_range'_eq_some n 0 i (Nat.zero_le i) (by omega) hpi
    (fun j _ h2 => hmin j h2)

theorem find?_range_eq_none {p : ℕ → Bool} {n : ℕ}
    (h : ∀ j, j < n → p j = false) :
    (List.range n).find? p = none := by
  rw [List.range_eq_range' n]
  exact find?_range'_eq_none n 0 (fun j _ h2 => h j (by omega))

/-! ## Claim C3 -/

/-- Type-and-prompt match at index `j`, ignoring the consumption ledger. -/
def entryMatches (tc : TaskCache) (t : PyCacheType) (p : String) (j : ℕ) : Bool :=
  match tc.caches[j]? with
  | some e => e.ctype = t && e.promptStr = p
  | none => false

theorem matchPred_eq (tc : TaskCache) (t : PyCacheType) (p : String) (j : ℕ) :
    matchPred tc t p j =
      (entryMatches tc t p j && !tc.matchedCacheIndices.contains (t, p, j)) := by
  unfold matchPred entryMatches
  cases tc.caches[j]? with
  | none => rfl
  | some e => simp [Bool.and_assoc]

theorem match_cache_spec {tc s' : TaskCache} {t : PyCacheType} {p : String}
    {i : ℕ} {e : CEntry}
    (heq : match_cache tc p t = (some (i, e), s')) :
    matchPred tc t p i = true ∧
    s' = { tc with matchedCacheIndices := (t, p, i) :: tc.matchedCacheIndices } := by
  unfold match_cache at heq
  split at heq
  · have := congrArg Prod.fst heq
    simp at this
  · split at heq
    · rename_i j hf
      split at heq
      · rename_i ej hg
        have h1 := congrArg Prod.fst heq
        have h2 := congrArg Prod.snd heq
        simp only at h1 h2
        rw [Option.some.injEq, Prod.mk.injEq] at h1
        obtain ⟨hji, -⟩ := h1
        subst hji
        exact ⟨List.find?_some hf, h2.symm⟩
      · have := congrArg Prod.fst heq
        simp at this
    · have := congrArg Prod.fst heq
      simp at this

/-- C3: on a cache whose original slice contains exactly two entries
matching `(t, p)` (at indices `i1 < i2`) and with an empty consumption
ledger, three sequential `match_cache` calls return entry `i1`, entry
`i2`, then `none`; and in general a successful `match_cache` consumes a
key that was not yet consumed, records it, and the same `(type, prompt)`
query can never return the same original index again. -/
theorem claimC3_match_consumption
    (tc : TaskCache) (t : PyCacheType) (p : String) (i1 i2 : ℕ) (e1 e2 : CEntry)
    (tc' s' : TaskCache) (t' : PyCacheType) (p' : String) (i' : ℕ) (e' : CEntry)
    (hused : tc.isCacheResultUsed = true)
    (hm0 : tc.matchedCacheIndices = [])
    (h12 : i1 < i2) (h2n : i2 < tc.cacheOriginalLength)
    (he1 : tc.caches[i1]? = some e1) (ht1 : e1.ctype = t) (hp1 : e1.promptStr = p)
    (he2 : tc.caches[i2]? = some e2) (ht2 : e2.ctype = t) (hp2 : e2.promptStr = p)
    (honly : ∀ j, j < tc.cacheOriginalLength → j ≠ i1 → j ≠ i2 →
      entryMatches tc t p j = false)
    (heq : match_cache tc' p' t' = (some (i', e'), s')) :
    (match_cache tc p t).1 = some (i1, e1) ∧
    (match_cache (match_cache tc p t).2 p t).1 = some (i2, e2) ∧
    (match_cache (match_cache (match_cache tc p t).2 p t).2 p t).1 = none ∧
    (t', p', i') ∉ tc'.matchedCacheIndices ∧
    (t', p', i') ∈ s'.matchedCacheIndices ∧
    (match_cache s' p' t').1.map Prod.fst ≠ some i' := by
  -- entryMatches facts at i1 and i2
  have hem1 : entryMatches tc t p i1 = true := by
    unfold entryMatches; rw [he1]; simp [ht1, hp1]
  have hem2 : entryMatches tc t p i2 = true := by
    unfold entryMatches; rw [he2]; simp [ht2, hp2]
  -- first call
  have hfind1 : (List.range tc.cacheOriginalLength).find? (matchPred tc t p) = some i1 := by
    apply find?_range_eq_some (by omega)
    · rw [matchPred_eq, hem1, hm0]; rfl
    · intro j hj
      rw [matchPred_eq, honly j (by omega) (by omega) (by omega)]
      rfl
  have hc1 : match_cache tc p t =
      (some (i1, e1), { tc with matchedCacheIndices := [(t, p, i1)] }) := by
    unfold match_cache
    rw [if_neg (by simp [hused]), hfind1]
    simp [he1, hm0]
  -- the state after the first call
  set s1 : TaskCache := { tc with matchedCacheIndices := [(t, p, i1)] } with hs1
  -- second call
  have hfind2 : (List.range s1.cacheOriginalLength).find? (matchPred s1 t p) = some i2 := by
    apply find?_range_eq_some (show i2 < s1.cacheOriginalLength from h2n)
    · rw [matchPred_eq]
      have : entryMatches s1 t p i2 = true := by
        unfold entryMatches
        show (match tc.caches[i2]? with
          | some e => e.ctype = t && e.promptStr = p
          | none => false) = true
        rw [he2]; simp [ht2, hp2]
      rw [this]
      simp [hs1]
      omega
    · intro j hj
      rw [matchPred_eq]
      by_cases hji : j = i1
      · subst hji
        simp [hs1]
      · have : entryMatches s1 t p j = false := by
          unfold entryMatches
          show (match tc.caches[j]? with
            | some e => e.ctype = t && e.promptStr = p
            | none => false) = false
          exact honly j (by omega) hji (by omega)
        rw [this]
        rfl
  have hc2 : match_cache s1 p t =
      (some (i2, e2), { tc with matchedCacheIndices := [(t, p, i2), (t, p, i1)] }) := by
    unfold match_cache
    rw [if_neg (by simp [hs1, hused]), hfind2]
    have : s1.caches[i2]? = some e2 := he2
    simp [this, hs1]
  set s2 : TaskCache := { tc with matchedCacheIndices := [(t, p, i2), (t, p, i1)] } with hs2
  -- third call
  have hfind3 : (List.range s2.cacheOriginalLength).find? (matchPred s2 t p) = none := by
    apply find?_range_eq_none
    intro j hj
    rw [matchPred_eq]
    by_cases hj1 : j = i1
    · subst hj1; simp [hs2]
    · by_cases hj2 : j = i2
      · subst hj2; simp [hs2]
      · have : entryMatches s2 t p j = false := by
          unfold entryMatches
          show (match tc.caches[j]? with
            | some e => e.ctype = t && e.promptStr = p
            | none => false) = false
          exact honly j hj hj1 hj2
        rw [this]
        rfl
  have hc3 : (match_cache s2 p t).1 = none := by
    unfold match_cache
    rw [if_neg (by simp [hs2, hused]), hfind3]
  -- general at-most-once part
  obtain ⟨hpred', hs'⟩ := match_cache_spec heq
  have hnotin : (t', p', i') ∉ tc'.matchedCacheIndices := by
    rw [matchPred_eq] at hpred'
    have h2 := ((Bool.and_eq_true _ _).mp hpred').2
    simp only [Bool.not_eq_true'] at h2
    intro hmem
    have hcontains : tc'.matchedCacheIndices.contains (t', p', i') = true :=
      List.elem_iff.mpr hmem
    rw [h2] at hcontains
    exact Bool.false_ne_true hcontains
  have hin : (t', p', i') ∈ s'.matchedCacheIndices := by
    rw [hs']; exact List.mem_cons_self _ _
  have hnever : (match_cache s' p' t').1.map Prod.fst ≠ some i' := by
    intro hcon
    cases hr : (match_cache s' p' t').1 with
    | none => rw [hr] at hcon; simp at hcon
    | some pr =>
      obtain ⟨j, ej⟩ := pr
      rw [hr] at hcon
      simp at hcon
      have heq2 : match_cache s' p' t' = (some (j, ej), (match_cache s' p' t').2) := by
        rw [← hr]
      obtain ⟨hpred2, -⟩ := match_cache_spec heq2
      rw [matchPred_eq] at hpred2
      have h2 := ((Bool.and_eq_true _ _).mp hpred2).2
      simp only [Bool.not_eq_true'] at h2
      have hcontains : s'.matchedCacheIndices.contains (t', p', j) = true :=
        List.elem_iff.mpr (hcon.symm ▸ hin)
      rw [h2] at hcontains
      exact Bool.false_ne_true hcontains
  rw [hc1]
  refine ⟨rfl, ?_, ?_, hnotin, hin, hnever⟩
  · show (match_cache s1 p t).1 = some (i2, e2)
    rw [hc2]
  · show (match_cache (match_cache s1 p t).2 p t).1 = none
    rw [hc2]
    exact hc3

/-- A concrete two-entry locate cache used to witness C3. -/
def c3cacheA : TaskCache :=
  ⟨[CEntry.locate "p" (some ["//a"]), CEntry.locate "p" (some ["//b"])],
   2, [], true, false, false, "1.0.0", "cid"⟩

/-- Witness for C3: a two-entry cache for the same `(locate, "p")` query
yields entry 0, entry 1, then `none`, and the consumption facts hold. -/
theorem claimC3_witness :
    (match_cache c3cacheA "p" .locate).1 =
      some (0, .locate "p" (some ["//a"])) ∧
    (match_cache (match_cache c3cacheA "p" .locate).2 "p" .locate).1 =
      some (1, .locate "p" (some ["//b"])) ∧
    (match_cache (match_cache (match_cache c3cacheA "p" .locate).2 "p"
      .locate).2 "p" .locate).1 = none ∧
    (PyCacheType.locate, "p", 0) ∉ c3cacheA.matchedCacheIndices ∧
    (PyCacheType.locate, "p", 0) ∈
      (match_cache c3cacheA "p" .locate).2.matchedCacheIndices ∧
    (match_cache (match_cache c3cacheA "p" .locate).2 "p" .locate).1.map
      Prod.fst ≠ some 0 :=
  claimC3_match_consumption c3cacheA .locate "p" 0 1
    (.locate "p" (some ["//a"])) (.locate "p" (some ["//b"]))
    c3cacheA (match_cache c3cacheA "p" .locate).2 .locate "p" 0
    (.locate "p" (some ["//a"]))
    rfl rfl (by decide) (by decide) rfl rfl rfl rfl rfl rfl
    (by intro j hj h1 h2; simp [c3cacheA] at hj; omega)
    (by decide)

/-! ## Events of one `ai_locate` call -/

theorem modelLocate_events (env : LocateEnv) (pre : List LEvent) :
    (modelLocate env pre).2 = pre ++ [LEvent.modelCall] := by
  unfold modelLocate
  cases env.responseBbox with
  | none => rfl
  | some b =>
    dsimp only
    split
    · rfl
    · split
      · rfl
      · split <;> rfl

theorem ai_locate_found_or_events (env : LocateEnv) (b : Bool) :
    ((∃ info, (ai_locate env b).1 = .found info) ∧
      (ai_locate env b).2 = [LEvent.cacheResolve true]) ∨
    (ai_locate env b).2 = [LEvent.cacheResolve false, LEvent.modelCall] ∨
    (ai_locate env b).2 = [LEvent.modelCall] := by
  unfold ai_locate
  rcases (if b then env.cacheResult else none) with _ | (_ | (_ | ⟨x, xs⟩)) <;>
    dsimp only
  · exact Or.inr (Or.inr (modelLocate_events env []))
  · exact Or.inr (Or.inr (modelLocate_events env []))
  · exact Or.inr (Or.inr (modelLocate_events env []))
  · cases env.resolveXpath x with
    | some info => exact Or.inl ⟨⟨info, rfl⟩, rfl⟩
    | none => exact Or.inr (Or.inl (modelLocate_events env [LEvent.cacheResolve false]))

theorem ai_locate_events (env : LocateEnv) (b : Bool) :
    (ai_locate env b).2 = [LEvent.cacheResolve true] ∨
    (ai_locate env b).2 = [LEvent.cacheResolve false, LEvent.modelCall] ∨
    (ai_locate env b).2 = [LEvent.modelCall] := by
  rcases ai_locate_found_or_events env b with ⟨-, h⟩ | h | h
  · exact Or.inl h
  · exact Or.inr (Or.inl h)
  · exact Or.inr (Or.inr h)

theorem ai_locate_modelCall_le (env : LocateEnv) (b : Bool) :
    (ai_locate env b).2.count LEvent.modelCall ≤ 1 := by
  rcases ai_locate_events env b with h | h | h <;> rw [h] <;> decide

theorem ai_locate_scroll_count (env : LocateEnv) (b : Bool) :
    (ai_locate env b).2.count LEvent.scrollEv = 0 := by
  rcases ai_locate_events env b with h | h | h <;> rw [h] <;> decide

theorem ai_locate_notFound_modelCall (env : LocateEnv) (b : Bool)
    (h : (ai_locate env b).1 = .notFound) :
    (ai_locate env b).2.count LEvent.modelCall = 1 := by
  rcases ai_locate_found_or_events env b with ⟨⟨info, hf⟩, -⟩ | he | he
  · rw [hf] at h
    simp at h
  · rw [he]; decide
  · rw [he]; decide

/-! ## Claim C4 -/

theorem scrollRetry_stub (env : ℕ → LocateEnv) (uc : Bool)
    (hstub : ∀ i b, (ai_locate (env i) b).1 = .notFound) :
    ∀ (r a : ℕ),
      (scrollRetryAux env uc a r).1 = .notFound ∧
      (scrollRetryAux env uc a r).2.count LEvent.modelCall = r ∧
      (scrollRetryAux env uc a r).2.count LEvent.scrollEv = r - 1 := by
  intro r
  induction r with
  | zero => intro a; exact ⟨rfl, rfl, rfl⟩
  | succ m ih =>
    intro a
    unfold scrollRetryAux
    dsimp only
    rw [hstub a (uc && a == 0)]
    dsimp only
    by_cases hm : m > 0
    · rw [if_pos hm]
      obtain ⟨ih1, ih2, ih3⟩ := ih (a + 1)
      refine ⟨ih1, ?_, ?_⟩
      · simp [List.count_append, List.count_cons, ih2,
          ai_locate_notFound_modelCall _ _ (hstub a (uc && a == 0))]
        omega
      · simp [List.count_append, List.count_cons, ih3, ai_locate_scroll_count]
        omega
    · rw [if_neg hm]
      have hm0 : m = 0 := by omega
      subst hm0
      exact ⟨rfl,
        ai_locate_notFound_modelCall _ _ (hstub a (uc && a == 0)),
        ai_locate_scroll_count _ _⟩

theorem scrollRetry_modelCall_le (env : ℕ → LocateEnv) (uc : Bool) :
    ∀ (r a : ℕ), (scrollRetryAux env uc a r).2.count LEvent.modelCall ≤ r := by
  intro r
  induction r with
  | zero => intro a; exact Nat.le_refl 0
  | succ m ih =>
    intro a
    unfold scrollRetryAux
    dsimp only
    cases ho : (ai_locate (env a) (uc && a == 0)).1 with
    | found e =>
      dsimp only
      exact le_trans (ai_locate_modelCall_le _ _) (by omega)
    | raised err =>
      dsimp only
      exact le_trans (ai_locate_modelCall_le _ _) (by omega)
    | notFound =>
      dsimp only
      by_cases hm : m > 0
      · rw [if_pos hm]
        have h1 := ai_locate_modelCall_le (env a) (uc && a == 0)
        have h2 := ih (a + 1)
        simp [List.count_append, List.count_cons]
        omega
      · rw [if_neg hm]
        exact le_trans (ai_locate_modelCall_le _ _) (by omega)

/-- C4: against a stub whose every locate attempt finds nothing, a
`ai_locate_with_scroll_retry` call with `max_scroll_attempts = n ≥ 1`
terminates with `None`, performs exactly `n` model calls and exactly
`n - 1` scrolls; and for any collaborators whatsoever the number of model
calls never exceeds `n`. -/
theorem claimC4_scroll_retry_termination (env env2 : ℕ → LocateEnv)
    (uc uc2 : Bool) (n : ℕ) (hn : 1 ≤ n)
    (hstub : ∀ i b, (ai_locate (env i) b).1 = .notFound) :
    (ai_locate_with_scroll_retry env uc n).1 = .notFound ∧
    (ai_locate_with_scroll_retry env uc n).2.count LEvent.modelCall = n ∧
    (ai_locate_with_scroll_retry env uc n).2.count LEvent.scrollEv = n - 1 ∧
    (ai_locate_with_scroll_retry env2 uc2 n).2.count LEvent.modelCall ≤ n := by
  obtain ⟨h1, h2, h3⟩ := scrollRetry_stub env uc hstub n 0
  exact ⟨h1, h2, h3, scrollRetry_modelCall_le env2 uc2 n 0⟩

/-- A locate environment for stubs that never find anything: no cache
hit, no resolvable XPath, and a model response with no `bbox` field. -/
def envNeverFound : LocateEnv :=
  ⟨none, fun _ => none, (1280, 800), none, none⟩

/-- Witness for C4 at `n = 3` with a stub that never finds an element. -/
theorem claimC4_witness :
    (ai_locate_with_scroll_retry (fun _ => envNeverFound) true 3).1 = .notFound ∧
    (ai_locate_with_scroll_retry (fun _ => envNeverFound) true 3).2.count
      LEvent.modelCall = 3 ∧
    (ai_locate_with_scroll_retry (fun _ => envNeverFound) true 3).2.count
      LEvent.scrollEv = 3 - 1 ∧
    (ai_locate_with_scroll_retry (fun _ => envNeverFound) true 3).2.count
      LEvent.modelCall ≤ 3 :=
  claimC4_scroll_retry_termination (fun _ => envNeverFound)
    (fun _ => envNeverFound) true true 3 (by decide)
    (fun i b => by cases b <;> rfl)

/-! ## Claim C5 -/

/-- C5 as stated is false: a malformed bounding box is not always treated
as "this attempt found nothing".  With the default (`qwen2.5-vl`) family
and model response `bbox = ["a", "b"]` (length 2, so it passes the
`len < 2` guard), `adapt_bbox` raises, the raw-value fallback is passed
to `format_bbox`, whose length check raises an uncaught `ValueError`: the
surrounding scroll-retry loop surfaces the error to the caller after a
single model call, with two attempts left unused. -/
theorem claimC5_counterexample :
    (ai_locate_with_scroll_retry
      (fun _ => ⟨none, fun _ => none, (1280, 800),
        some (.arr [.str ['a'], .str ['b']]), none⟩) true 3).1 =
      .raised .valueError ∧
    (ai_locate_with_scroll_retry
      (fun _ => ⟨none, fun _ => none, (1280, 800),
        some (.arr [.str ['a'], .str ['b']]), none⟩) true 3).2.count
      LEvent.modelCall = 1 := by
  constructor <;> rfl

/-- C5 amended: a model response with no (or unparseable) `bbox` field,
or one whose bbox fails the initial guard (a list with fewer than 2
items — which includes the empty list and singly-nested arrays — or an
empty string), makes the attempt return no element with no error; a
malformed box that passes that guard but fails adaptation instead raises
through the `format_bbox` fallback (see the counterexample). -/
theorem claimC5_missing_bbox_not_found (env1 env2 env3 : LocateEnv)
    (pre1 pre2 pre3 : List LEvent) (items : List PyVal) (s : List Char)
    (h1 : env1.responseBbox = none)
    (h2 : env2.responseBbox = some (.arr items)) (hlen : items.length < 2)
    (h3 : env3.responseBbox = some (.str s)) (hs : s = []) :
    (modelLocate env1 pre1).1 = .notFound ∧
    (modelLocate env2 pre2).1 = .notFound ∧
    (modelLocate env3 pre3).1 = .notFound := by
  refine ⟨?_, ?_, ?_⟩
  · unfold modelLocate
    rw [h1]
  · unfold modelLocate
    rw [h2]
    dsimp only
    rw [if_pos (by simp [invalidBboxGuard, hlen])]
  · unfold modelLocate
    rw [h3]
    dsimp only
    rw [if_pos (by simp [invalidBboxGuard, hs])]

/-- Witness for the amended C5 on concrete environments. -/
theorem claimC5_witness :
    (modelLocate ⟨none, fun _ => none, (1280, 800), none, none⟩ []).1 =
      .notFound ∧
    (modelLocate ⟨none, fun _ => none, (1280, 800),
      some (.arr [.num 5]), none⟩ []).1 = .notFound ∧
    (modelLocate ⟨none, fun _ => none, (1280, 800),
      some (.str []), none⟩ []).1 = .notFound :=
  claimC5_missing_bbox_not_found
    ⟨none, fun _ => none, (1280, 800), none, none⟩
    ⟨none, fun _ => none, (1280, 800), some (.arr [.num 5]), none⟩
    ⟨none, fun _ => none, (1280, 800), some (.str []), none⟩
    [] [] [] [.num 5] []
    rfl rfl (by decide) rfl rfl

/-! ## Claim C8 -/

/-- C8: when on the first (un-scrolled) attempt the cache hits but the
stored XPath does not resolve on the live page, the very same attempt
proceeds to a model call, with no scroll (and no failure) in between: the
event trace starts with the failed cache resolution immediately followed
by the model call. -/
theorem claimC8_stale_cache_fallback (env : ℕ → LocateEnv) (n : ℕ)
    (hn : 1 ≤ n) (x : String) (xs : List String)
    (hc : (env 0).cacheResult = some (some (x :: xs)))
    (hr : (env 0).resolveXpath x = none) :
    (ai_locate_with_scroll_retry env true n).2.take 2 =
      [LEvent.cacheResolve false, LEvent.modelCall] := by
  obtain ⟨m, rfl⟩ : ∃ m, n = m + 1 := ⟨n - 1, by omega⟩
  have hev : (ai_locate (env 0) (true && 0 == 0)).2 =
      LEvent.cacheResolve false :: [LEvent.modelCall] := by
    show (ai_locate (env 0) true).2 = _
    unfold ai_locate
    rw [if_pos rfl, hc]
    dsimp only
    rw [hr]
    exact modelLocate_events (env 0) [LEvent.cacheResolve false]
  unfold ai_locate_with_scroll_retry scrollRetryAux
  dsimp only
  cases ho : (ai_locate (env 0) (true && 0 == 0)).1 with
  | found e =>
    dsimp only
    rw [hev]
    rfl
  | raised err =>
    dsimp only
    rw [hev]
    rfl
  | notFound =>
    dsimp only
    by_cases hm : m > 0
    · rw [if_pos hm, hev]
      rfl
    · rw [if_neg hm, hev]
      rfl

/-- Witness for C8: stale cached XPath, three attempts. -/
theorem claimC8_witness :
    (ai_locate_with_scroll_retry
      (fun _ => ⟨some (some ["//x"]), fun _ => none, (1280, 800), none, none⟩)
      true 3).2.take 2 = [LEvent.cacheResolve false, LEvent.modelCall] :=
  claimC8_stale_cache_fallback
    (fun _ => ⟨some (some ["//x"]), fun _ => none, (1280, 800), none, none⟩)
    3 (by decide) "//x" [] rfl rfl

/-! ## Tokenization of joined digit strings (towards C9) -/

theorem isDigitRun_ne_nil {s : List Char} (h : isDigitRun s = true) : s ≠ [] := by
  unfold isDigitRun at h
  intro hn
  subst hn
  simp at h

theorem isDigitRun_all {s : List Char} (h : isDigitRun s = true) :
    ∀ c ∈ s, c.isDigit = true := by
  unfold isDigitRun at h
  simp only [Bool.and_eq_true, List.all_eq_true] at h
  exact h.2

theorem isDigitRun_nonsep {s : List Char} (h : isDigitRun s = true) :
    ∀ c ∈ s, isSepC c = false :=
  fun c hc => digit_not_sep (isDigitRun_all h c hc)

theorem stripWs_eq_self_of_ends {cs : List Char}
    (h1 : ∀ c, cs.head? = some c → isWs c = false)
    (h2 : ∀ c, cs.getLast? = some c → isWs c = false) :
    stripWs cs = cs := by
  unfold stripWs
  have hd : cs.dropWhile isWs = cs := by
    cases cs with
    | nil => rfl
    | cons c rest =>
      rw [List.dropWhile_cons_of_neg]
      simp [h1 c rfl]
  rw [hd]
  have hrev : cs.reverse.dropWhile isWs = cs.reverse := by
    cases hrv : cs.reverse with
    | nil => rfl
    | cons c rest =>
      rw [List.dropWhile_cons_of_neg]
      have hc : cs.getLast? = some c := by
        rw [← List.head?_reverse, hrv]
        rfl
      simp [h2 c hc]
  rw [hrev, List.reverse_reverse]

/-- The last element of the joined string
`s1 ++ (d1 :: (s2 ++ (d2 :: (s3 ++ (d3 :: s4)))))` is the last element of
`s4`. -/
theorem getLast?_join4 (s1 s2 s3 s4 : List Char) (d1 d2 d3 : Char)
    (h4 : s4 ≠ []) :
    (s1 ++ (d1 :: (s2 ++ (d2 :: (s3 ++ (d3 :: s4)))))).getLast? = s4.getLast? := by
  rw [List.getLast?_append_of_ne_nil _ (by simp)]
  rw [show (d1 :: (s2 ++ (d2 :: (s3 ++ (d3 :: s4))))) =
    [d1] ++ (s2 ++ (d2 :: (s3 ++ (d3 :: s4)))) from rfl]
  rw [List.getLast?_append_of_ne_nil _ (by simp)]
  rw [List.getLast?_append_of_ne_nil _ (by simp)]
  rw [show (d2 :: (s3 ++ (d3 :: s4))) = [d2] ++ (s3 ++ (d3 :: s4)) from rfl]
  rw [List.getLast?_append_of_ne_nil _ (by simp)]
  rw [List.getLast?_append_of_ne_nil _ (by simp)]
  rw [show (d3 :: s4) = [d3] ++ s4 from rfl]
  rw [List.getLast?_append_of_ne_nil _ h4]

theorem stripWs_join4 (s1 s2 s3 s4 : List Char) (d1 d2 d3 : Char)
    (h1 : isDigitRun s1 = true) (h4 : isDigitRun s4 = true) :
    stripWs (s1 ++ (d1 :: (s2 ++ (d2 :: (s3 ++ (d3 :: s4)))))) =
      s1 ++ (d1 :: (s2 ++ (d2 :: (s3 ++ (d3 :: s4))))) := by
  apply stripWs_eq_self_of_ends
  · intro c hc
    rw [List.head?_append_of_ne_nil _ (isDigitRun_ne_nil h1)] at hc
    exact digit_not_ws (isDigitRun_all h1 c (List.mem_of_mem_head? hc))
  · intro c hc
    rw [getLast?_join4 _ _ _ _ _ _ _ (isDigitRun_ne_nil h4)] at hc
    exact digit_not_ws (isDigitRun_all h4 c (List.mem_of_mem_getLast? hc))

theorem reSplit_token_cons (s : List Char) (d : Char) (rest : List Char)
    (hs : ∀ c ∈ s, isSepC c = false) (hd : isSepC d = true) :
    reSplitSeps (s ++ (d :: rest)) = s :: splitSkip rest := by
  unfold reSplitSeps
  rw [splitTok_append_of_nonsep _ _ hs]
  simp [splitTok, hd]

theorem splitSkip_token_cons (s : List Char) (d : Char) (rest : List Char)
    (hne : s ≠ []) (hs : ∀ c ∈ s, isSepC c = false) (hd : isSepC d = true) :
    splitSkip (s ++ (d :: rest)) = s :: splitSkip rest := by
  cases s with
  | nil => exact absurd rfl hne
  | cons c t =>
    have hc := hs c (by simp)
    simp only [List.cons_append, splitSkip, hc, Bool.false_eq_true, if_false,
      List.append_eq]
    rw [splitTok_append_of_nonsep _ _ (fun a ha => hs a (by simp [ha]))]
    simp [splitTok, hd]

theorem splitSkip_token_end (s : List Char) (hne : s ≠ [])
    (hs : ∀ c ∈ s, isSepC c = false) :
    splitSkip s = [s] := by
  cases s with
  | nil => exact absurd rfl hne
  | cons c t =>
    have hc := hs c (by simp)
    simp only [splitSkip, hc, Bool.false_eq_true, if_false]
    have ht : splitTok t [c] = splitTok ([] : List Char) (t.reverse ++ [c]) := by
      conv_lhs => rw [show t = t ++ ([] : List Char) from (List.append_nil t).symm]
      exact splitTok_append_of_nonsep _ _ (fun a ha => hs a (by simp [ha]))
    rw [ht]
    simp [splitTok]

theorem reSplit_join4 (s1 s2 s3 s4 : List Char) (d1 d2 d3 : Char)
    (h1 : isDigitRun s1 = true) (h2 : isDigitRun s2 = true)
    (h3 : isDigitRun s3 = true) (h4 : isDigitRun s4 = true)
    (hd1 : isSepC d1 = true) (hd2 : isSepC d2 = true) (hd3 : isSepC d3 = true) :
    reSplitSeps (s1 ++ (d1 :: (s2 ++ (d2 :: (s3 ++ (d3 :: s4)))))) =
      [s1, s2, s3, s4] := by
  rw [reSplit_token_cons s1 d1 _ (isDigitRun_nonsep h1) hd1,
    splitSkip_token_cons s2 d2 _ (isDigitRun_ne_nil h2) (isDigitRun_nonsep h2) hd2,
    splitSkip_token_cons s3 d3 _ (isDigitRun_ne_nil h3) (isDigitRun_nonsep h3) hd3,
    splitSkip_token_end s4 (isDigitRun_ne_nil h4) (isDigitRun_nonsep h4)]

theorem floatOfToken_digitRun {s : List Char} (h : isDigitRun s = true) :
    floatOfToken s = .ok ((digitsVal s : ℕ) : ℚ) := by
  unfold floatOfToken
  rw [parseNum_digitRun h]

theorem mapM_floatOfToken_four (s1 s2 s3 s4 : List Char)
    (h1 : isDigitRun s1 = true) (h2 : isDigitRun s2 = true)
    (h3 : isDigitRun s3 = true) (h4 : isDigitRun s4 = true) :
    ([s1, s2, s3, s4].mapM floatOfToken : Except PyErr (List ℚ)) =
      .ok [(digitsVal s1 : ℚ), (digitsVal s2 : ℚ),
           (digitsVal s3 : ℚ), (digitsVal s4 : ℚ)] := by
  simp only [List.mapM_cons, List.mapM_nil, floatOfToken_digitRun h1,
    floatOfToken_digitRun h2, floatOfToken_digitRun h3, floatOfToken_digitRun h4]
  rfl

/-! ## The doubao string matcher on joined digit strings -/

theorem takeIntTok_token_cons (s : List Char) (c : Char) (r : List Char)
    (hs : isDigitRun s = true) (hc : c.isDigit = false) :
    takeIntTok (s ++ (c :: r)) = some (digitsVal s, c :: r) := by
  unfold takeIntTok
  rw [List.takeWhile_append_of_pos (isDigitRun_all hs),
    List.dropWhile_append_of_pos (isDigitRun_all hs),
    List.takeWhile_cons_of_neg (by simp [hc]),
    List.dropWhile_cons_of_neg (by simp [hc]),
    List.append_nil]
  rw [if_neg (by simp [isDigitRun_ne_nil hs])]

theorem takeIntTok_token_end (s : List Char) (hs : isDigitRun s = true) :
    takeIntTok s = some (digitsVal s, []) := by
  unfold takeIntTok
  rw [List.takeWhile_eq_self_iff.mpr (isDigitRun_all hs),
    List.dropWhile_eq_nil_iff.mpr (fun a ha => isDigitRun_all hs a ha)]
  rw [if_neg (by simp [isDigitRun_ne_nil hs])]

theorem matchDoubaoStr_space_join (s1 s2 s3 s4 : List Char)
    (h1 : isDigitRun s1 = true) (h2 : isDigitRun s2 = true)
    (h3 : isDigitRun s3 = true) (h4 : isDigitRun s4 = true) :
    matchDoubaoStr (s1 ++ (' ' :: (s2 ++ (' ' :: (s3 ++ (' ' :: s4)))))) =
      some (digitsVal s1, digitsVal s2, digitsVal s3, digitsVal s4) := by
  unfold matchDoubaoStr
  rw [takeIntTok_token_cons s1 ' ' _ h1 (by decide)]
  simp only [Option.bind_eq_bind, Option.some_bind]
  rw [show oneWs (' ' :: (s2 ++ (' ' :: (s3 ++ (' ' :: s4))))) =
    some (s2 ++ (' ' :: (s3 ++ (' ' :: s4)))) from by simp [oneWs, isWs]]
  simp only [Option.some_bind]
  rw [takeIntTok_token_cons s2 ' ' _ h2 (by decide)]
  simp only [Option.some_bind]
  rw [show oneWs (' ' :: (s3 ++ (' ' :: s4))) = some (s3 ++ (' ' :: s4)) from by
    simp [oneWs, isWs]]
  simp only [Option.some_bind]
  rw [takeIntTok_token_cons s3 ' ' _ h3 (by decide)]
  simp only [Option.some_bind]
  rw [show oneWs (' ' :: s4) = some s4 from by simp [oneWs, isWs]]
  simp only [Option.some_bind]
  rw [takeIntTok_token_end s4 h4]
  simp only [Option.some_bind]
  simp

theorem matchDoubaoStr_comma (s1 : List Char) (rest : List Char)
    (h1 : isDigitRun s1 = true) :
    matchDoubaoStr (s1 ++ (',' :: rest)) = none := by
  unfold matchDoubaoStr
  rw [takeIntTok_token_cons s1 ',' rest h1 (by decide)]
  simp only [Option.bind_eq_bind, Option.some_bind]
  rw [show oneWs (',' :: rest) = none from by simp [oneWs, isWs]]
  rfl

/-! ## `adapt_bbox` on four-token strings, per family -/

theorem adapt_bbox_gemini_str4 (s1 s2 s3 s4 : List Char) (d1 d2 d3 : Char)
    (w h : ℕ)
    (h1 : isDigitRun s1 = true) (h2 : isDigitRun s2 = true)
    (h3 : isDigitRun s3 = true) (h4 : isDigitRun s4 = true)
    (hd1 : isSepC d1 = true) (hd2 : isSepC d2 = true) (hd3 : isSepC d3 = true) :
    adapt_bbox (.str (s1 ++ (d1 :: (s2 ++ (d2 :: (s3 ++ (d3 :: s4))))))) w h
      none none (some "gemini") =
      .ok (scale1000 (digitsVal s2 : ℕ) w, scale1000 (digitsVal s1 : ℕ) h,
           min (scale1000 (digitsVal s4 : ℕ) w) (w : ℤ),
           min (scale1000 (digitsVal s3 : ℕ) h) (h : ℤ)) := by
  unfold adapt_bbox
  simp only [Option.getD_none, normalize_bbox_input]
  rw [if_neg (by decide), if_pos (by decide)]
  rw [stripWs_join4 _ _ _ _ _ _ _ h1 h4,
    reSplit_join4 _ _ _ _ _ _ _ h1 h2 h3 h4 hd1 hd2 hd3,
    mapM_floatOfToken_four _ _ _ _ h1 h2 h3 h4]
  rfl

theorem adapt_bbox_qwen_str4 (s1 s2 s3 s4 : List Char) (d1 d2 d3 : Char)
    (w h : ℕ)
    (h1 : isDigitRun s1 = true) (h2 : isDigitRun s2 = true)
    (h3 : isDigitRun s3 = true) (h4 : isDigitRun s4 = true)
    (hd1 : isSepC d1 = true) (hd2 : isSepC d2 = true) (hd3 : isSepC d3 = true) :
    adapt_bbox (.str (s1 ++ (d1 :: (s2 ++ (d2 :: (s3 ++ (d3 :: s4))))))) w h
      none none (some "qwen2.5-vl") =
      .ok (pyRound (digitsVal s1 : ℕ), pyRound (digitsVal s2 : ℕ),
           min (pyRound (digitsVal s3 : ℕ)) (w : ℤ),
           min (pyRound (digitsVal s4 : ℕ)) (h : ℤ)) := by
  unfold adapt_bbox
  simp only [Option.getD_none, normalize_bbox_input]
  rw [if_neg (by decide), if_neg (by decide), if_pos (by decide)]
  rw [stripWs_join4 _ _ _ _ _ _ _ h1 h4,
    reSplit_join4 _ _ _ _ _ _ _ h1 h2 h3 h4 hd1 hd2 hd3,
    mapM_floatOfToken_four _ _ _ _ h1 h2 h3 h4]
  rfl

theorem adapt_bbox_default_str4 (s1 s2 s3 s4 : List Char) (d1 d2 d3 : Char)
    (w h : ℕ) (mf : Option String) (hmf : isDefaultFamily mf = true)
    (h1 : isDigitRun s1 = true) (h2 : isDigitRun s2 = true)
    (h3 : isDigitRun s3 = true) (h4 : isDigitRun s4 = true)
    (hd1 : isSepC d1 = true) (hd2 : isSepC d2 = true) (hd3 : isSepC d3 = true) :
    adapt_bbox (.str (s1 ++ (d1 :: (s2 ++ (d2 :: (s3 ++ (d3 :: s4))))))) w h
      none none mf =
      .ok (scale1000 (digitsVal s1 : ℕ) w, scale1000 (digitsVal s2 : ℕ) h,
           min (scale1000 (digitsVal s3 : ℕ) w) (w : ℤ),
           min (scale1000 (digitsVal s4 : ℕ) h) (h : ℤ)) := by
  unfold isDefaultFamily at hmf
  simp only [Bool.not_eq_true', Bool.or_eq_false_iff, decide_eq_false_iff_not] at hmf
  obtain ⟨⟨⟨hm1, hm2⟩, hm3⟩, hm4⟩ := hmf
  unfold adapt_bbox
  simp only [Option.getD_none, normalize_bbox_input]
  rw [if_neg (by simp [hm1, hm2]), if_neg (by simp [hm3]), if_neg (by simp [hm4])]
  rw [stripWs_join4 _ _ _ _ _ _ _ h1 h4,
    reSplit_join4 _ _ _ _ _ _ _ h1 h2 h3 h4 hd1 hd2 hd3]
  rw [if_pos (by simp)]
  rw [mapM_floatOfToken_four _ _ _ _ h1 h2 h3 h4]
  rfl

theorem adapt_bbox_doubao_str_space (s1 s2 s3 s4 : List Char) (w h : ℕ)
    (hw : 0 < w) (hh : 0 < h) (mf : Option String)
    (hd : (mf = some "doubao-vision" || is_ui_tars mf) = true)
    (h1 : isDigitRun s1 = true) (h2 : isDigitRun s2 = true)
    (h3 : isDigitRun s3 = true) (h4 : isDigitRun s4 = true) :
    adapt_bbox (.str (s1 ++ (' ' :: (s2 ++ (' ' :: (s3 ++ (' ' :: s4))))))) w h
      none none mf =
      .ok (scale1000 (digitsVal s1 : ℕ) w, scale1000 (digitsVal s2 : ℕ) h,
           min (scale1000 (digitsVal s3 : ℕ) w) (w : ℤ),
           min (scale1000 (digitsVal s4 : ℕ) h) (h : ℤ)) := by
  unfold adapt_bbox
  simp only [Option.getD_none, normalize_bbox_input]
  rw [if_pos hd]
  unfold adapt_doubao_bbox
  rw [if_neg (by omega)]
  dsimp only
  rw [stripWs_join4 _ _ _ _ _ _ _ h1 h4,
    matchDoubaoStr_space_join _ _ _ _ h1 h2 h3 h4]
  rfl

theorem adapt_bbox_doubao_str_comma (s1 : List Char) (rest : List Char)
    (w h : ℕ) (hw : 0 < w) (hh : 0 < h) (mf : Option String)
    (hd : (mf = some "doubao-vision" || is_ui_tars mf) = true)
    (h1 : isDigitRun s1 = true)
    (hrest1 : ∀ c, rest.getLast? = some c → isWs c = false) :
    adapt_bbox (.str (s1 ++ (',' :: rest))) w h none none mf =
      .error .valueError := by
  unfold adapt_bbox
  simp only [Option.getD_none, normalize_bbox_input]
  rw [if_pos hd]
  unfold adapt_doubao_bbox
  rw [if_neg (by omega)]
  dsimp only
  have hstrip : stripWs (s1 ++ (',' :: rest)) = s1 ++ (',' :: rest) := by
    apply stripWs_eq_self_of_ends
    · intro c hc
      rw [List.head?_append_of_ne_nil _ (isDigitRun_ne_nil h1)] at hc
      exact digit_not_ws (isDigitRun_all h1 c (List.mem_of_mem_head? hc))
    · intro c hc
      rw [List.getLast?_append_of_ne_nil _ (by simp)] at hc
      cases hrst : rest with
      | nil =>
        subst hrst
        simp at hc
        subst hc
        decide
      | cons r0 rs =>
        subst hrst
        rw [show (',' :: (r0 :: rs)) = [','] ++ (r0 :: rs) from rfl,
          List.getLast?_append_of_ne_nil _ (by simp)] at hc
        exact hrest1 c hc
  rw [hstrip, matchDoubaoStr_comma s1 rest h1]
  rfl

/-! ## Claim C9 -/

/-- C9 as stated is false: for the doubao-vision family a comma-separated
bbox string raises `ValueError` (its string format check accepts only
single-space-separated integers), while the same four numbers as a list
adapt to a rect. -/
theorem claimC9_counterexample :
    adapt_bbox (.str "500,300,700,400".data) 1920 1080 none none
      (some "doubao-vision") = .error .valueError ∧
    (adapt_bbox (.arr [.num 500, .num 300, .num 700, .num 400]) 1920 1080
      none none (some "doubao-vision")).map format_bbox =
      .ok ⟨960, 324, 384, 108⟩ := by
  constructor
  · rfl
  · rw [adapt_bbox_doubao_arr4 500 300 700 400 1920 1080 (by norm_num)
      (by norm_num)]
    show Except.ok (format_bbox _) = _
    norm_num [scale1000, pyRound, format_bbox, min_def]

/-- C9 amended: for the gemini, qwen2.5-vl and default families, a string
bbox is split on runs of commas/whitespace, so the comma-joined and the
space-joined forms of four integer tokens adapt exactly as the equivalent
4-number list does; for the doubao-vision / ui-tars families only the
single-space-joined form agrees with the list, and the comma-joined form
raises `ValueError`. -/
theorem claimC9_string_tokenization (s1 s2 s3 s4 : List Char) (w h : ℕ)
    (hw : 0 < w) (hh : 0 < h) (mfA mfB : Option String)
    (h1 : isDigitRun s1 = true) (h2 : isDigitRun s2 = true)
    (h3 : isDigitRun s3 = true) (h4 : isDigitRun s4 = true)
    (hA : (mfA = some "doubao-vision" || is_ui_tars mfA) = false)
    (hB : (mfB = some "doubao-vision" || is_ui_tars mfB) = true) :
    adapt_bbox (.str (s1 ++ (',' :: (s2 ++ (',' :: (s3 ++ (',' :: s4)))))))
        w h none none mfA =
      adapt_bbox (.arr [.num (digitsVal s1 : ℕ), .num (digitsVal s2 : ℕ),
        .num (digitsVal s3 : ℕ), .num (digitsVal s4 : ℕ)]) w h none none mfA ∧
    adapt_bbox (.str (s1 ++ (' ' :: (s2 ++ (' ' :: (s3 ++ (' ' :: s4)))))))
        w h none none mfA =
      adapt_bbox (.arr [.num (digitsVal s1 : ℕ), .num (digitsVal s2 : ℕ),
        .num (digitsVal s3 : ℕ), .num (digitsVal s4 : ℕ)]) w h none none mfA ∧
    adapt_bbox (.str (s1 ++ (' ' :: (s2 ++ (' ' :: (s3 ++ (' ' :: s4)))))))
        w h none none mfB =
      adapt_bbox (.arr [.num (digitsVal s1 : ℕ), .num (digitsVal s2 : ℕ),
        .num (digitsVal s3 : ℕ), .num (digitsVal s4 : ℕ)]) w h none none mfB ∧
    adapt_bbox (.str (s1 ++ (',' :: (s2 ++ (',' :: (s3 ++ (',' :: s4)))))))
        w h none none mfB = .error .valueError := by
  have hrest1 : ∀ c, (s2 ++ (',' :: (s3 ++ (',' :: s4)))).getLast? = some c →
      isWs c = false := by
    intro c hc
    rw [List.getLast?_append_of_ne_nil _ (by simp)] at hc
    rw [show (',' :: (s3 ++ (',' :: s4))) = [','] ++ (s3 ++ (',' :: s4))
      from rfl, List.getLast?_append_of_ne_nil _ (by simp)] at hc
    rw [List.getLast?_append_of_ne_nil _ (by simp)] at hc
    rw [show (',' :: s4) = [','] ++ s4 from rfl,
      List.getLast?_append_of_ne_nil _ (isDigitRun_ne_nil h4)] at hc
    exact digit_not_ws (isDigitRun_all h4 c (List.mem_of_mem_getLast? hc))
  have habstract : ∀ mf : Option String,
      (mf = some "doubao-vision" || is_ui_tars mf) = false →
      adapt_bbox (.str (s1 ++ (',' :: (s2 ++ (',' :: (s3 ++ (',' :: s4)))))))
          w h none none mf =
        adapt_bbox (.arr [.num (digitsVal s1 : ℕ), .num (digitsVal s2 : ℕ),
          .num (digitsVal s3 : ℕ), .num (digitsVal s4 : ℕ)]) w h none none mf ∧
      adapt_bbox (.str (s1 ++ (' ' :: (s2 ++ (' ' :: (s3 ++ (' ' :: s4)))))))
          w h none none mf =
        adapt_bbox (.arr [.num (digitsVal s1 : ℕ), .num (digitsVal s2 : ℕ),
          .num (digitsVal s3 : ℕ), .num (digitsVal s4 : ℕ)]) w h none none mf := by
    intro mf hmf
    by_cases hg : mf = some "gemini"
    · subst hg
      rw [adapt_bbox_gemini_str4 _ _ _ _ _ _ _ _ _ h1 h2 h3 h4
          (by decide) (by decide) (by decide),
        adapt_bbox_gemini_str4 _ _ _ _ _ _ _ _ _ h1 h2 h3 h4
          (by decide) (by decide) (by decide),
        adapt_bbox_gemini_arr4]
      exact ⟨rfl, rfl⟩
    · by_cases hq : mf = some "qwen2.5-vl"
      · subst hq
        rw [adapt_bbox_qwen_str4 _ _ _ _ _ _ _ _ _ h1 h2 h3 h4
            (by decide) (by decide) (by decide),
          adapt_bbox_qwen_str4 _ _ _ _ _ _ _ _ _ h1 h2 h3 h4
            (by decide) (by decide) (by decide),
          adapt_bbox_qwen_arr4]
        exact ⟨rfl, rfl⟩
      · have hdef : isDefaultFamily mf = true := by
          simp only [Bool.or_eq_false_iff] at hmf
          unfold isDefaultFamily
          simp only [Bool.not_eq_true', Bool.or_eq_false_iff,
            decide_eq_false_iff_not]
          exact ⟨⟨⟨by simpa using hmf.1, hmf.2⟩, hg⟩, hq⟩
        rw [adapt_bbox_default_str4 _ _ _ _ _ _ _ _ _ _ hdef h1 h2 h3 h4
            (by decide) (by decide) (by decide),
          adapt_bbox_default_str4 _ _ _ _ _ _ _ _ _ _ hdef h1 h2 h3 h4
            (by decide) (by decide) (by decide),
          adapt_bbox_default_arr4 _ _ _ _ _ _ _ hdef]
        exact ⟨rfl, rfl⟩
  obtain ⟨ha1, ha2⟩ := habstract mfA hA
  refine ⟨ha1, ha2, ?_, ?_⟩
  · rw [adapt_bbox_doubao_str_space _ _ _ _ _ _ hw hh _ hB h1 h2 h3 h4,
      adapt_bbox_doubao_arr4' _ _ _ _ _ _ hw hh _ hB]
  · exact adapt_bbox_doubao_str_comma s1 _ w h hw hh mfB hB h1 hrest1

/-- Witness for the amended C9 at tokens 500/300/700/400, gemini versus
doubao-vision, 1920×1080. -/
theorem claimC9_witness :
    adapt_bbox (.str ("500".data ++ (',' :: ("300".data ++ (',' ::
        ("700".data ++ (',' :: "400".data))))))) 1920 1080 none none
        (some "gemini") =
      adapt_bbox (.arr [.num (digitsVal "500".data : ℕ),
        .num (digitsVal "300".data : ℕ), .num (digitsVal "700".data : ℕ),
        .num (digitsVal "400".data : ℕ)]) 1920 1080 none none (some "gemini") ∧
    adapt_bbox (.str ("500".data ++ (' ' :: ("300".data ++ (' ' ::
        ("700".data ++ (' ' :: "400".data))))))) 1920 1080 none none
        (some "gemini") =
      adapt_bbox (.arr [.num (digitsVal "500".data : ℕ),
        .num (digitsVal "300".data : ℕ), .num (digitsVal "700".data : ℕ),
        .num (digitsVal "400".data : ℕ)]) 1920 1080 none none (some "gemini") ∧
    adapt_bbox (.str ("500".data ++ (' ' :: ("300".data ++ (' ' ::
        ("700".data ++ (' ' :: "400".data))))))) 1920 1080 none none
        (some "doubao-vision") =
      adapt_bbox (.arr [.num (digitsVal "500".data : ℕ),
        .num (digitsVal "300".data : ℕ), .num (digitsVal "700".data : ℕ),
        .num (digitsVal "400".data : ℕ)]) 1920 1080 none none
        (some "doubao-vision") ∧
    adapt_bbox (.str ("500".data ++ (',' :: ("300".data ++ (',' ::
        ("700".data ++ (',' :: "400".data))))))) 1920 1080 none none
        (some "doubao-vision") = .error .valueError :=
  claimC9_string_tokenization "500".data "300".data "700".data "400".data
    1920 1080 (by decide) (by decide) (some "gemini") (some "doubao-vision")
    (by decide) (by decide) (by decide) (by decide) (by decide) (by decide)

/-! ## Claim C6 -/

/-- The rect invariant claimed by the spec: non-negative fields, right and
bottom edges within the limits (which default to the image size). -/
def rectInBounds (r : Rect) (w h : ℕ) : Prop :=
  0 ≤ r.left ∧ 0 ≤ r.top ∧ 0 ≤ r.width ∧ 0 ≤ r.height ∧
  r.left + r.width ≤ (w : ℚ) ∧ r.top + r.height ≤ (h : ℚ)

/-- A successful adaptation whose formatted rect satisfies the invariant. -/
def okRectInBounds (res : Except PyErr Bbox4) (w h : ℕ) : Prop :=
  match res with
  | .ok t => rectInBounds (format_bbox t) w h
  | .error _ => False

theorem scale1000_nonneg {b : ℚ} (hb : 0 ≤ b) (d : ℕ) : 0 ≤ scale1000 b d :=
  pyRound_nonneg (by positivity)

theorem scale1000_mono {b b' : ℚ} (hb : b ≤ b') (d : ℕ) :
    scale1000 b d ≤ scale1000 b' d := by
  apply pyRound_mono
  have hd : (0:ℚ) ≤ (d : ℚ) := by positivity
  have := mul_le_mul_of_nonneg_right hb hd
  linarith

theorem scale1000_le_dim {b : ℚ} (hb : b ≤ 1000) (d : ℕ) :
    scale1000 b d ≤ (d : ℤ) := by
  have h1 : b * d / 1000 ≤ ((d : ℤ) : ℚ) := by
    have hd : (0:ℚ) ≤ (d : ℚ) := by positivity
    have := mul_le_mul_of_nonneg_right hb hd
    push_cast
    linarith
  calc scale1000 b d ≤ pyRound ((d : ℤ) : ℚ) := pyRound_mono h1
    _ = (d : ℤ) := pyRound_intCast _

theorem rectInBounds_format (A B C D : ℤ) (w h : ℕ)
    (hA0 : 0 ≤ A) (hB0 : 0 ≤ B) (hAC : A ≤ C) (hBD : B ≤ D)
    (hCw : C ≤ (w : ℤ)) (hDh : D ≤ (h : ℤ)) :
    rectInBounds (format_bbox (A, B, C, D)) w h := by
  unfold rectInBounds format_bbox
  dsimp only
  refine ⟨by exact_mod_cast hA0, by exact_mod_cast hB0,
    by exact_mod_cast Int.sub_nonneg.mpr hAC,
    by exact_mod_cast Int.sub_nonneg.mpr hBD, ?_, ?_⟩
  · have : (A : ℚ) + ((C - A : ℤ) : ℚ) = ((C : ℤ) : ℚ) := by push_cast; ring
    rw [this]
    exact_mod_cast hCw
  · have : (B : ℚ) + ((D - B : ℤ) : ℚ) = ((D : ℤ) : ℚ) := by push_cast; ring
    rw [this]
    exact_mod_cast hDh

/-- C6 as stated is false: the coordinates of an accepted box are not
required to be ordered, so the inverted doubao box `[700,300,500,400]`
adapts successfully at 1000×1000 to a rect with `width = -200 < 0`. -/
theorem claimC6_counterexample :
    (adapt_bbox (.arr [.num 700, .num 300, .num 500, .num 400]) 1000 1000
      none none (some "doubao-vision")).map format_bbox =
      .ok ⟨700, 300, -200, 100⟩ ∧ ((-200 : ℚ) < 0) := by
  constructor
  · rw [adapt_bbox_doubao_arr4 700 300 500 400 1000 1000 (by norm_num)
      (by norm_num)]
    show Except.ok (format_bbox _) = _
    norm_num [scale1000, pyRound, format_bbox, min_def]
  · norm_num

/-- C6 amended: the right/bottom clamping always happens, and the
resulting rect is non-negative and within `[0,w]×[0,h]` provided the
input coordinates are non-negative, ordered (`x1 ≤ x2`, `y1 ≤ y2`) and
within the normalization range (≤ 1000 for the 0–1000 families on their
respective axes, ≤ width/height for qwen2.5-vl pixel boxes);
doubao-vision center points within range always produce in-bounds rects.
This covers 4-number boxes of the doubao-vision, gemini, qwen2.5-vl and
default families and 2-number doubao-vision center points. -/
theorem claimC6_rect_invariants (w h : ℕ) (hw : 0 < w) (hh : 0 < h)
    (a0 a1 a2 a3 g0 g1 g2 g3 q0 q1 q2 q3 c0 c1 : ℚ) (mf : Option String)
    (ha00 : 0 ≤ a0) (ha02 : a0 ≤ a2) (ha2 : a2 ≤ 1000)
    (ha10 : 0 ≤ a1) (ha13 : a1 ≤ a3) (ha3 : a3 ≤ 1000)
    (hg10 : 0 ≤ g1) (hg13 : g1 ≤ g3) (hg3 : g3 ≤ 1000)
    (hg00 : 0 ≤ g0) (hg02 : g0 ≤ g2) (hg2 : g2 ≤ 1000)
    (hq00 : 0 ≤ q0) (hq02 : q0 ≤ q2) (hq2 : q2 ≤ (w : ℚ))
    (hq10 : 0 ≤ q1) (hq13 : q1 ≤ q3) (hq3 : q3 ≤ (h : ℚ))
    (hc00 : 0 ≤ c0) (hc0 : c0 ≤ 1000) (hc10 : 0 ≤ c1) (hc1 : c1 ≤ 1000)
    (hmf : isDefaultFamily mf = true) :
    okRectInBounds (adapt_bbox (.arr [.num a0, .num a1, .num a2, .num a3])
      w h none none (some "doubao-vision")) w h ∧
    okRectInBounds (adapt_bbox (.arr [.num g0, .num g1, .num g2, .num g3])
      w h none none (some "gemini")) w h ∧
    okRectInBounds (adapt_bbox (.arr [.num q0, .num q1, .num q2, .num q3])
      w h none none (some "qwen2.5-vl")) w h ∧
    okRectInBounds (adapt_bbox (.arr [.num a0, .num a1, .num a2, .num a3])
      w h none none mf) w h ∧
    okRectInBounds (adapt_bbox (.arr [.num c0, .num c1]) w h none none
      (some "doubao-vision")) w h := by
  refine ⟨?_, ?_, ?_, ?_, ?_⟩
  · rw [show okRectInBounds (adapt_bbox (.arr [.num a0, .num a1, .num a2, .num a3])
        w h none none (some "doubao-vision")) w h =
      rectInBounds (format_bbox (scale1000 a0 w, scale1000 a1 h,
        min (scale1000 a2 w) (w : ℤ), min (scale1000 a3 h) (h : ℤ))) w h from by
      rw [adapt_bbox_doubao_arr4 _ _ _ _ _ _ hw hh]; rfl]
    exact rectInBounds_format _ _ _ _ _ _
      (scale1000_nonneg ha00 w) (scale1000_nonneg ha10 h)
      (le_min (scale1000_mono ha02 w)
        (le_trans (scale1000_mono (le_trans ha02 ha2) w)
          (scale1000_le_dim (le_refl _) w)))
      (le_min (scale1000_mono ha13 h)
        (le_trans (scale1000_mono (le_trans ha13 ha3) h)
          (scale1000_le_dim (le_refl _) h)))
      (min_le_right _ _) (min_le_right _ _)
  · rw [show okRectInBounds (adapt_bbox (.arr [.num g0, .num g1, .num g2, .num g3])
        w h none none (some "gemini")) w h =
      rectInBounds (format_bbox (scale1000 g1 w, scale1000 g0 h,
        min (scale1000 g3 w) (w : ℤ), min (scale1000 g2 h) (h : ℤ))) w h from by
      rw [adapt_bbox_gemini_arr4]; rfl]
    exact rectInBounds_format _ _ _ _ _ _
      (scale1000_nonneg hg10 w) (scale1000_nonneg hg00 h)
      (le_min (scale1000_mono hg13 w)
        (le_trans (scale1000_mono (le_trans hg13 hg3) w)
          (scale1000_le_dim (le_refl _) w)))
      (le_min (scale1000_mono hg02 h)
        (le_trans (scale1000_mono (le_trans hg02 hg2) h)
          (scale1000_le_dim (le_refl _) h)))
      (min_le_right _ _) (min_le_right _ _)
  · rw [show okRectInBounds (adapt_bbox (.arr [.num q0, .num q1, .num q2, .num q3])
        w h none none (some "qwen2.5-vl")) w h =
      rectInBounds (format_bbox (pyRound q0, pyRound q1,
        min (pyRound q2) (w : ℤ), min (pyRound q3) (h : ℤ))) w h from by
      rw [adapt_bbox_qwen_arr4]; rfl]
    have hq2' : pyRound q2 ≤ (w : ℤ) := by
      calc pyRound q2 ≤ pyRound ((w : ℤ) : ℚ) := pyRound_mono (by push_cast; linarith)
        _ = (w : ℤ) := pyRound_intCast _
    have hq3' : pyRound q3 ≤ (h : ℤ) := by
      calc pyRound q3 ≤ pyRound ((h : ℤ) : ℚ) := pyRound_mono (by push_cast; linarith)
        _ = (h : ℤ) := pyRound_intCast _
    exact rectInBounds_format _ _ _ _ _ _
      (pyRound_nonneg hq00) (pyRound_nonneg hq10)
      (le_min (pyRound_mono hq02) (le_trans (pyRound_mono hq02) hq2'))
      (le_min (pyRound_mono hq13) (le_trans (pyRound_mono hq13) hq3'))
      (min_le_right _ _) (min_le_right _ _)
  · rw [show okRectInBounds (adapt_bbox (.arr [.num a0, .num a1, .num a2, .num a3])
        w h none none mf) w h =
      rectInBounds (format_bbox (scale1000 a0 w, scale1000 a1 h,
        min (scale1000 a2 w) (w : ℤ), min (scale1000 a3 h) (h : ℤ))) w h from by
      rw [adapt_bbox_default_arr4 _ _ _ _ _ _ _ hmf]; rfl]
    exact rectInBounds_format _ _ _ _ _ _
      (scale1000_nonneg ha00 w) (scale1000_nonneg ha10 h)
      (le_min (scale1000_mono ha02 w)
        (le_trans (scale1000_mono (le_trans ha02 ha2) w)
          (scale1000_le_dim (le_refl _) w)))
      (le_min (scale1000_mono ha13 h)
        (le_trans (scale1000_mono (le_trans ha13 ha3) h)
          (scale1000_le_dim (le_refl _) h)))
      (min_le_right _ _) (min_le_right _ _)
  · rw [show okRectInBounds (adapt_bbox (.arr [.num c0, .num c1]) w h none none
        (some "doubao-vision")) w h =
      rectInBounds (format_bbox (max 0 (scale1000 c0 w - 10),
        max 0 (scale1000 c1 h - 10),
        min (min (w : ℤ) (scale1000 c0 w + 10)) (w : ℤ),
        min (min (h : ℤ) (scale1000 c1 h + 10)) (h : ℤ))) w h from by
      rw [adapt_bbox_doubao_center2 _ _ _ _ hw hh]; rfl]
    have hcx0 : 0 ≤ scale1000 c0 w := scale1000_nonneg hc00 w
    have hcxw : scale1000 c0 w ≤ (w : ℤ) := scale1000_le_dim hc0 w
    have hcy0 : 0 ≤ scale1000 c1 h := scale1000_nonneg hc10 h
    have hcyh : scale1000 c1 h ≤ (h : ℤ) := scale1000_le_dim hc1 h
    exact rectInBounds_format _ _ _ _ _ _
      (le_max_left _ _) (le_max_left _ _)
      (le_min (le_min (by omega) (by omega)) (by omega))
      (le_min (le_min (by omega) (by omega)) (by omega))
      (min_le_right _ _) (min_le_right _ _)

/-- Witness for the amended C6 on in-range ordered boxes at 1000×800. -/
theorem claimC6_witness :
    okRectInBounds (adapt_bbox (.arr [.num 100, .num 200, .num 300, .num 400])
      1000 800 none none (some "doubao-vision")) 1000 800 ∧
    okRectInBounds (adapt_bbox (.arr [.num 50, .num 60, .num 70, .num 80])
      1000 800 none none (some "gemini")) 1000 800 ∧
    okRectInBounds (adapt_bbox (.arr [.num 10, .num 20, .num 500, .num 600])
      1000 800 none none (some "qwen2.5-vl")) 1000 800 ∧
    okRectInBounds (adapt_bbox (.arr [.num 100, .num 200, .num 300, .num 400])
      1000 800 none none (some "qwen3-vl")) 1000 800 ∧
    okRectInBounds (adapt_bbox (.arr [.num 995, .num 5]) 1000 800 none none
      (some "doubao-vision")) 1000 800 :=
  claimC6_rect_invariants 1000 800 (by decide) (by decide)
    100 200 300 400 50 60 70 80 10 20 500 600 995 5 (some "qwen3-vl")
    (by decide) (by decide) (by decide) (by decide) (by decide) (by decide)
    (by decide) (by decide) (by decide) (by decide) (by decide) (by decide)
    (by decide) (by decide) (by decide) (by decide) (by decide) (by decide)
    (by decide) (by decide) (by decide) (by decide) (by decide)

/-! ## Claim C7 -/

/-- C7: `append_cache` on a read-only cache appends the entry to the
in-memory list but leaves the on-disk file unchanged; on a non-read-only
(read-write) cache it rewrites the file to the full document including
the new entry. -/
theorem claimC7_append_strategy (tc1 tc2 : TaskCache) (e1 e2 : CEntry)
    (f1 f2 : Option CacheFileDoc)
    (h1 : tc1.readOnlyMode = true) (h2 : tc2.readOnlyMode = false) :
    (append_cache tc1 e1 f1).2 = f1 ∧
    (append_cache tc1 e1 f1).1.caches = tc1.caches ++ [e1] ∧
    (append_cache tc2 e2 f2).2 =
      some ⟨tc2.midsceneVersion, tc2.cacheId, tc2.caches ++ [e2]⟩ ∧
    e2 ∈ tc2.caches ++ [e2] := by
  unfold append_cache
  simp [h1, h2, flushDoc]

/-- Witness for C7 on a concrete read-only and a concrete read-write
cache over the same one-entry file. -/
theorem claimC7_witness :
    (append_cache
        ⟨[], 0, [], true, true, false, "1.0.0", "cid"⟩
        (.locate "p" (some ["//a"]))
        (some ⟨"1.0.0", "cid", []⟩)).2 = some ⟨"1.0.0", "cid", []⟩ ∧
    (append_cache
        ⟨[], 0, [], true, true, false, "1.0.0", "cid"⟩
        (.locate "p" (some ["//a"]))
        (some ⟨"1.0.0", "cid", []⟩)).1.caches = [] ++ [.locate "p" (some ["//a"])] ∧
    (append_cache
        ⟨[], 0, [], true, false, false, "1.0.0", "cid"⟩
        (.locate "p" (some ["//a"]))
        (some ⟨"1.0.0", "cid", []⟩)).2 =
      some ⟨"1.0.0", "cid", [] ++ [.locate "p" (some ["//a"])]⟩ ∧
    CEntry.locate "p" (some ["//a"]) ∈ [] ++ [CEntry.locate "p" (some ["//a"])] :=
  claimC7_append_strategy
    ⟨[], 0, [], true, true, false, "1.0.0", "cid"⟩
    ⟨[], 0, [], true, false, false, "1.0.0", "cid"⟩
    (.locate "p" (some ["//a"])) (.locate "p" (some ["//a"]))
    (some ⟨"1.0.0", "cid", []⟩) (some ⟨"1.0.0", "cid", []⟩)
    rfl rfl

/-! ## Claim C10: the substitution loop of `preprocess_doubao_bbox_json` -/

theorem ws_not_digit {c : Char} (hw : isWs c = true) : c.isDigit = false := by
  unfold isWs at hw
  simp only [Bool.or_eq_true, decide_eq_true_eq] at hw
  rcases hw with ((((rfl | rfl) | rfl) | rfl) | rfl) | rfl <;> decide

theorem wsCount_cons (c : Char) (l : List Char) :
    wsCount (c :: l) = (if isWs c then 1 else 0) + wsCount l := by
  unfold wsCount
  by_cases hc : isWs c
  · rw [List.filter_cons_of_pos hc]
    simp [hc]
    omega
  · rw [List.filter_cons_of_neg hc]
    simp [hc]

theorem wsCount_append (a b : List Char) :
    wsCount (a ++ b) = wsCount a + wsCount b := by
  unfold wsCount
  rw [List.filter_append, List.length_append]

theorem wsCount_eq_zero_of {l : List Char} (h : ∀ c ∈ l, isWs c = false) :
    wsCount l = 0 := by
  unfold wsCount
  rw [List.filter_eq_nil_iff.mpr (by intro a ha; simp [h a ha])]
  rfl

theorem wsCount_all_ws {l : List Char} (h : ∀ c ∈ l, isWs c = true) :
    wsCount l = l.length := by
  unfold wsCount
  rw [List.filter_eq_self.mpr (by intro a ha; simp [h a ha])]

theorem dropWhile_head_false {p : Char → Bool} :
    ∀ (l : List Char) {c : Char} {r : List Char},
      l.dropWhile p = c :: r → p c = false := by
  intro l
  induction l with
  | nil => intro c r h; simp at h
  | cons a t ih =>
    intro c r h
    by_cases ha : p a
    · rw [List.dropWhile_cons_of_pos ha] at h
      exact ih h
    · rw [List.dropWhile_cons_of_neg ha] at h
      injection h with h1 h2
      subst h1
      simpa using ha

theorem wsPlusDigit_cons (c : Char) (rest : List Char) :
    wsPlusDigit (c :: rest) =
      (isWs c && ((match rest with | d :: _ => d.isDigit | [] => false) ||
        wsPlusDigit rest)) := rfl

theorem hasPat_cons (c : Char) (rest : List Char) :
    hasDigitWsDigit (c :: rest) =
      ((c.isDigit && wsPlusDigit rest) || hasDigitWsDigit rest) := rfl

/-- `\s+\d` cannot match at a whitespace run followed by input whose head
is neither whitespace nor a digit. -/
theorem wsPlusDigit_run_append {r : List Char}
    (hr : ∀ c, r.head? = some c → isWs c = false ∧ c.isDigit = false) :
    ∀ ws, (∀ c ∈ ws, isWs c = true) → wsPlusDigit (ws ++ r) = false := by
  intro ws
  induction ws with
  | nil =>
    intro _
    cases r with
    | nil => rfl
    | cons c r' =>
      rw [List.nil_append, wsPlusDigit_cons, (hr c rfl).1]
      rfl
  | cons cw ws' ih =>
    intro hws
    rw [List.cons_append, wsPlusDigit_cons, ih (fun c hc => hws c (by simp [hc]))]
    have hhead : (match ws' ++ r with | d :: _ => d.isDigit | [] => false) = false := by
      cases hw' : ws' with
      | cons c2 ws'' =>
        simp only [List.cons_append]
        exact ws_not_digit (hws c2 (by simp [hw']))
      | nil =>
        simp only [List.nil_append]
        cases r with
        | nil => rfl
        | cons c r' => exact (hr c rfl).2
    rw [hhead]
    simp

/-- A pattern match cannot start inside a pure-whitespace block. -/
theorem hasPat_ws_append (r : List Char) :
    ∀ ws, (∀ c ∈ ws, isWs c = true) →
      hasDigitWsDigit (ws ++ r) = hasDigitWsDigit r := by
  intro ws
  induction ws with
  | nil => intro _; rfl
  | cons cw ws' ih =>
    intro hws
    rw [List.cons_append, hasPat_cons, ws_not_digit (hws cw (by simp)),
      ih (fun c hc => hws c (by simp [hc]))]
    simp

theorem subPass_eq_case2 (c : Char) (rest : List Char) (hd : c.isDigit = true)
    (hws : ((((c :: rest).dropWhile Char.isDigit).takeWhile isWs).isEmpty) = true) :
    subPass (c :: rest) = (c :: rest).takeWhile Char.isDigit ++
      subPass ((c :: rest).dropWhile Char.isDigit) := by
  rw [subPass.eq_2]
  rw [dif_pos hd]
  dsimp only
  rw [if_pos hws]

theorem subPass_eq_case3 (c : Char) (rest : List Char) (hd : c.isDigit = true)
    (hws : ¬ ((((c :: rest).dropWhile Char.isDigit).takeWhile isWs).isEmpty) = true)
    (d : Char) (tail : List Char)
    (hr2 : ((c :: rest).dropWhile Char.isDigit).dropWhile isWs = d :: tail)
    (hdig : d.isDigit = true) :
    subPass (c :: rest) = (c :: rest).takeWhile Char.isDigit ++
      ',' :: ((d :: tail).takeWhile Char.isDigit ++
        subPass ((d :: tail).dropWhile Char.isDigit)) := by
  rw [subPass.eq_2]
  rw [dif_pos hd]
  dsimp only
  rw [if_neg hws, hr2]
  dsimp only
  rw [if_pos hdig]

theorem subPass_eq_case4 (c : Char) (rest : List Char) (hd : c.isDigit = true)
    (hws : ¬ ((((c :: rest).dropWhile Char.isDigit).takeWhile isWs).isEmpty) = true)
    (d : Char) (tail : List Char)
    (hr2 : ((c :: rest).dropWhile Char.isDigit).dropWhile isWs = d :: tail)
    (hdig : ¬ d.isDigit = true) :
    subPass (c :: rest) = (c :: rest).takeWhile Char.isDigit ++
      ((c :: rest).dropWhile Char.isDigit).takeWhile isWs ++
        subPass (d :: tail) := by
  rw [subPass.eq_2]
  rw [dif_pos hd]
  dsimp only
  rw [if_neg hws, hr2]
  dsimp only
  rw [if_neg hdig, ← hr2]

theorem subPass_eq_case5 (c : Char) (rest : List Char) (hd : c.isDigit = true)
    (hws : ¬ ((((c :: rest).dropWhile Char.isDigit).takeWhile isWs).isEmpty) = true)
    (hr2 : ((c :: rest).dropWhile Char.isDigit).dropWhile isWs = []) :
    subPass (c :: rest) = (c :: rest).takeWhile Char.isDigit ++
      ((c :: rest).dropWhile Char.isDigit).takeWhile isWs := by
  rw [subPass.eq_2]
  rw [dif_pos hd]
  dsimp only
  rw [if_neg hws, hr2]

theorem subPass_eq_case6 (c : Char) (rest : List Char) (hd : ¬ c.isDigit = true) :
    subPass (c :: rest) = c :: subPass rest := by
  rw [subPass.eq_2]
  rw [dif_neg hd]

/-- A pattern match cannot start inside a digit block when the input after
the block cannot begin a `\s+\d` match. -/
theorem hasPat_digits_append {r : List Char} (hr : wsPlusDigit r = false) :
    ∀ d, (∀ c ∈ d, c.isDigit = true) →
      hasDigitWsDigit (d ++ r) = hasDigitWsDigit r := by
  intro d
  induction d with
  | nil => intro _; rfl
  | cons c d' ih =>
    intro hd
    rw [List.cons_append, hasPat_cons, ih (fun a ha => hd a (by simp [ha]))]
    have hwp : wsPlusDigit (d' ++ r) = false := by
      cases hd' : d' with
      | cons c2 d'' =>
        rw [List.cons_append, wsPlusDigit_cons,
          digit_not_ws (hd c2 (by simp [hd']))]
        rfl
      | nil => rw [List.nil_append]; exact hr
    rw [hwp]
    simp

/-- Every substitution pass removes at least one whitespace character when
the pattern is present, and never adds whitespace. -/
theorem subPass_wsCount (cs : List Char) :
    wsCount (subPass cs) ≤ wsCount cs ∧
    (hasDigitWsDigit cs = true → wsCount (subPass cs) < wsCount cs) := by
  induction cs using subPass.induct with
  | case1 =>
    rw [subPass.eq_1]
    refine ⟨le_refl _, ?_⟩
    intro h
    simp [hasDigitWsDigit] at h
  | case2 c rest hd r1 ws hws ih =>
    have hws' : (((c :: rest).dropWhile Char.isDigit).takeWhile isWs).isEmpty = true := hws
    have ih' : wsCount (subPass ((c :: rest).dropWhile Char.isDigit)) ≤
        wsCount ((c :: rest).dropWhile Char.isDigit) ∧
        (hasDigitWsDigit ((c :: rest).dropWhile Char.isDigit) = true →
          wsCount (subPass ((c :: rest).dropWhile Char.isDigit)) <
            wsCount ((c :: rest).dropWhile Char.isDigit)) := ih
    obtain ⟨ih1, ih2⟩ := ih'
    have hd1 : ∀ a ∈ (c :: rest).takeWhile Char.isDigit, a.isDigit = true :=
      fun a ha => List.mem_takeWhile_imp ha
    have hw0 : wsCount ((c :: rest).takeWhile Char.isDigit) = 0 :=
      wsCount_eq_zero_of (fun a ha => digit_not_ws (hd1 a ha))
    have hdecomp : (c :: rest).takeWhile Char.isDigit ++
        (c :: rest).dropWhile Char.isDigit = c :: rest :=
      List.takeWhile_append_dropWhile _ _
    have hwp : wsPlusDigit ((c :: rest).dropWhile Char.isDigit) = false := by
      cases hr1 : (c :: rest).dropWhile Char.isDigit with
      | nil => rfl
      | cons c2 t2 =>
        rw [wsPlusDigit_cons]
        have hc2 : isWs c2 = false := by
          by_contra hcon
          rw [Bool.not_eq_false] at hcon
          rw [hr1, List.takeWhile_cons_of_pos hcon] at hws'
          simp at hws'
        rw [hc2]
        rfl
    have hcount : wsCount (c :: rest) =
        wsCount ((c :: rest).dropWhile Char.isDigit) := by
      conv_lhs => rw [← hdecomp]
      rw [wsCount_append, hw0, Nat.zero_add]
    have hpat : hasDigitWsDigit (c :: rest) =
        hasDigitWsDigit ((c :: rest).dropWhile Char.isDigit) := by
      conv_lhs => rw [← hdecomp]
      exact hasPat_digits_append hwp _ hd1
    rw [subPass_eq_case2 c rest hd hws', wsCount_append, hw0, Nat.zero_add,
      hcount]
    refine ⟨ih1, ?_⟩
    intro hp
    rw [hpat] at hp
    exact ih2 hp
  | case3 c rest hd r1 ws r2 hws d tail hr2 hdig ih =>
    have hws' : ¬ (((c :: rest).dropWhile Char.isDigit).takeWhile isWs).isEmpty = true := hws
    have hr2' : ((c :: rest).dropWhile Char.isDigit).dropWhile isWs = d :: tail := hr2
    have ih' : wsCount (subPass ((d :: tail).dropWhile Char.isDigit)) ≤
        wsCount ((d :: tail).dropWhile Char.isDigit) := by
      have h0 := ih.1
      rw [hr2] at h0
      exact h0
    have hd1 : ∀ a ∈ (c :: rest).takeWhile Char.isDigit, a.isDigit = true :=
      fun a ha => List.mem_takeWhile_imp ha
    have hw0 : wsCount ((c :: rest).takeWhile Char.isDigit) = 0 :=
      wsCount_eq_zero_of (fun a ha => digit_not_ws (hd1 a ha))
    have hd2 : wsCount ((d :: tail).takeWhile Char.isDigit) = 0 :=
      wsCount_eq_zero_of (fun a ha => digit_not_ws (List.mem_takeWhile_imp ha))
    have hdecomp : (c :: rest).takeWhile Char.isDigit ++
        (c :: rest).dropWhile Char.isDigit = c :: rest :=
      List.takeWhile_append_dropWhile _ _
    have hdecomp2 : ((c :: rest).dropWhile Char.isDigit).takeWhile isWs ++
        ((c :: rest).dropWhile Char.isDigit).dropWhile isWs =
        (c :: rest).dropWhile Char.isDigit :=
      List.takeWhile_append_dropWhile _ _
    have hdecomp3 : (d :: tail).takeWhile Char.isDigit ++
        (d :: tail).dropWhile Char.isDigit = d :: tail :=
      List.takeWhile_append_dropWhile _ _
    have hwslen : 1 ≤ wsCount (((c :: rest).dropWhile Char.isDigit).takeWhile isWs) := by
      rw [wsCount_all_ws (fun a ha => List.mem_takeWhile_imp ha)]
      rcases hcase : ((c :: rest).dropWhile Char.isDigit).takeWhile isWs with _ | ⟨x, xs⟩
      · rw [hcase] at hws'
        simp at hws'
      · simp
    have hcount : wsCount (c :: rest) =
        wsCount (((c :: rest).dropWhile Char.isDigit).takeWhile isWs) +
          wsCount ((d :: tail).dropWhile Char.isDigit) := by
      conv_lhs => rw [← hdecomp]
      rw [wsCount_append, hw0, Nat.zero_add]
      conv_lhs => rw [← hdecomp2, hr2']
      rw [wsCount_append]
      conv_lhs => rw [show wsCount (d :: tail) =
        wsCount ((d :: tail).takeWhile Char.isDigit ++
          (d :: tail).dropWhile Char.isDigit) from by rw [hdecomp3]]
      rw [wsCount_append, hd2, Nat.zero_add]
    have hres : wsCount (subPass (c :: rest)) =
        wsCount (subPass ((d :: tail).dropWhile Char.isDigit)) := by
      rw [subPass_eq_case3 c rest hd hws' d tail hr2' hdig,
        wsCount_append, hw0, Nat.zero_add, wsCount_cons, wsCount_append, hd2]
      have hcomma : isWs ',' = false := by decide
      rw [hcomma]
      norm_num
    have hlt : wsCount (subPass (c :: rest)) < wsCount (c :: rest) := by
      rw [hres, hcount]
      omega
    exact ⟨le_of_lt hlt, fun _ => hlt⟩
  | case4 c rest hd r1 ws r2 hws d tail hr2 hdig ih =>
    have hws' : ¬ (((c :: rest).dropWhile Char.isDigit).takeWhile isWs).isEmpty = true := hws
    have hr2' : ((c :: rest).dropWhile Char.isDigit).dropWhile isWs = d :: tail := hr2
    have ih' : wsCount (subPass (d :: tail)) ≤ wsCount (d :: tail) ∧
        (hasDigitWsDigit (d :: tail) = true →
          wsCount (subPass (d :: tail)) < wsCount (d :: tail)) := by
      have h0 := ih
      rw [hr2] at h0
      exact h0
    obtain ⟨ih1, ih2⟩ := ih'
    have hd1 : ∀ a ∈ (c :: rest).takeWhile Char.isDigit, a.isDigit = true :=
      fun a ha => List.mem_takeWhile_imp ha
    have hw0 : wsCount ((c :: rest).takeWhile Char.isDigit) = 0 :=
      wsCount_eq_zero_of (fun a ha => digit_not_ws (hd1 a ha))
    have hdecomp : (c :: rest).takeWhile Char.isDigit ++
        (c :: rest).dropWhile Char.isDigit = c :: rest :=
      List.takeWhile_append_dropWhile _ _
    have hdecomp2 : ((c :: rest).dropWhile Char.isDigit).takeWhile isWs ++
        ((c :: rest).dropWhile Char.isDigit).dropWhile isWs =
        (c :: rest).dropWhile Char.isDigit :=
      List.takeWhile_append_dropWhile _ _
    have hallws : ∀ a ∈ ((c :: rest).dropWhile Char.isDigit).takeWhile isWs,
        isWs a = true := fun a ha => List.mem_takeWhile_imp ha
    have hdws : isWs d = false := dropWhile_head_false _ hr2'
    have hddig : d.isDigit = false := by
      rw [Bool.not_eq_true] at hdig
      exact hdig
    have hhead : ∀ x, (d :: tail).head? = some x → isWs x = false ∧ x.isDigit = false := by
      intro x hx
      injection hx with hx
      subst hx
      exact ⟨hdws, hddig⟩
    have hwp : wsPlusDigit ((c :: rest).dropWhile Char.isDigit) = false := by
      conv_lhs => rw [← hdecomp2, hr2']
      exact wsPlusDigit_run_append hhead _ hallws
    have hpat : hasDigitWsDigit (c :: rest) = hasDigitWsDigit (d :: tail) := by
      conv_lhs => rw [← hdecomp]
      rw [hasPat_digits_append hwp _ hd1]
      conv_lhs => rw [← hdecomp2, hr2']
      exact hasPat_ws_append _ _ hallws
    have hcount : wsCount (c :: rest) =
        wsCount (((c :: rest).dropWhile Char.isDigit).takeWhile isWs) +
          wsCount (d :: tail) := by
      conv_lhs => rw [← hdecomp]
      rw [wsCount_append, hw0, Nat.zero_add]
      conv_lhs => rw [← hdecomp2, hr2']
      rw [wsCount_append]
    have hres : wsCount (subPass (c :: rest)) =
        wsCount (((c :: rest).dropWhile Char.isDigit).takeWhile isWs) +
          wsCount (subPass (d :: tail)) := by
      rw [subPass_eq_case4 c rest hd hws' d tail hr2' hdig,
        wsCount_append, wsCount_append, hw0, Nat.zero_add]
    constructor
    · rw [hres, hcount]
      omega
    · intro hp
      rw [hpat] at hp
      have := ih2 hp
      rw [hres, hcount]
      omega
  | case5 c rest hd r1 ws r2 hws hr2 =>
    have hws' : ¬ (((c :: rest).dropWhile Char.isDigit).takeWhile isWs).isEmpty = true := hws
    have hr2' : ((c :: rest).dropWhile Char.isDigit).dropWhile isWs = [] := hr2
    have hd1 : ∀ a ∈ (c :: rest).takeWhile Char.isDigit, a.isDigit = true :=
      fun a ha => List.mem_takeWhile_imp ha
    have hw0 : wsCount ((c :: rest).takeWhile Char.isDigit) = 0 :=
      wsCount_eq_zero_of (fun a ha => digit_not_ws (hd1 a ha))
    have hdecomp : (c :: rest).takeWhile Char.isDigit ++
        (c :: rest).dropWhile Char.isDigit = c :: rest :=
      List.takeWhile_append_dropWhile _ _
    have hdecomp2 : ((c :: rest).dropWhile Char.isDigit).takeWhile isWs ++
        ((c :: rest).dropWhile Char.isDigit).dropWhile isWs =
        (c :: rest).dropWhile Char.isDigit :=
      List.takeWhile_append_dropWhile _ _
    have hallws : ∀ a ∈ ((c :: rest).dropWhile Char.isDigit).takeWhile isWs,
        isWs a = true := fun a ha => List.mem_takeWhile_imp ha
    have hhead : ∀ x, ([] : List Char).head? = some x →
        isWs x = false ∧ x.isDigit = false := by
      intro x hx
      simp at hx
    have hwp : wsPlusDigit ((c :: rest).dropWhile Char.isDigit) = false := by
      conv_lhs => rw [← hdecomp2, hr2']
      exact wsPlusDigit_run_append hhead _ hallws
    have hpat : hasDigitWsDigit (c :: rest) = false := by
      conv_lhs => rw [← hdecomp]
      rw [hasPat_digits_append hwp _ hd1]
      conv_lhs => rw [← hdecomp2, hr2']
      rw [hasPat_ws_append _ _ hallws]
      rfl
    have hcount : wsCount (c :: rest) =
        wsCount (((c :: rest).dropWhile Char.isDigit).takeWhile isWs) := by
      conv_lhs => rw [← hdecomp]
      rw [wsCount_append, hw0, Nat.zero_add]
      conv_lhs => rw [← hdecomp2, hr2']
      rw [wsCount_append]
      simp [wsCount]
    rw [subPass_eq_case5 c rest hd hws' hr2', wsCount_append, hw0, Nat.zero_add,
      hcount]
    refine ⟨le_refl _, ?_⟩
    intro hp
    rw [hpat] at hp
    exact absurd hp (by simp)
  | case6 c rest hd ih =>
    obtain ⟨ih1, ih2⟩ := ih
    have hcd : c.isDigit = false := by
      rw [Bool.not_eq_true] at hd
      exact hd
    have hpat : hasDigitWsDigit (c :: rest) = hasDigitWsDigit rest := by
      rw [hasPat_cons, hcd]
      simp
    rw [subPass_eq_case6 c rest hd, wsCount_cons, wsCount_cons]
    constructor
    · omega
    · intro hp
      rw [hpat] at hp
      have := ih2 hp
      omega

theorem subLoopN_of_no_pat (n : ℕ) (cs : List Char)
    (h : hasDigitWsDigit cs = false) : subLoopN n cs = cs := by
  cases n with
  | zero => rfl
  | succ m =>
    show (if hasDigitWsDigit cs then subLoopN m (subPass cs) else cs) = cs
    rw [h]
    simp

theorem subLoop_no_pat (fuel : ℕ) :
    ∀ cs : List Char, wsCount cs < fuel →
      hasDigitWsDigit (subLoopN fuel cs) = false := by
  induction fuel with
  | zero =>
    intro cs h
    exact absurd h (Nat.not_lt_zero _)
  | succ n ih =>
    intro cs h
    show hasDigitWsDigit (if hasDigitWsDigit cs then subLoopN n (subPass cs) else cs) = false
    by_cases hp : hasDigitWsDigit cs = true
    · rw [hp]
      simp only [if_true]
      apply ih
      have hlt := (subPass_wsCount cs).2 hp
      omega
    · rw [Bool.not_eq_true] at hp
      rw [hp]
      simp only [Bool.false_eq_true, if_false]
      exact hp

theorem preprocess_no_pat (cs : List Char)
    (h : containsSeq "bbox".data cs = true) :
    hasDigitWsDigit (preprocess_doubao_bbox_json cs) = false := by
  unfold preprocess_doubao_bbox_json
  rw [h]
  simp only [if_true]
  exact subLoop_no_pat _ cs (Nat.lt_succ_self _)

theorem preprocess_id_of_no_bbox (cs : List Char)
    (h : containsSeq "bbox".data cs = false) :
    preprocess_doubao_bbox_json cs = cs := by
  unfold preprocess_doubao_bbox_json
  rw [h]
  simp

theorem preprocess_idem (cs : List Char) :
    preprocess_doubao_bbox_json (preprocess_doubao_bbox_json cs) =
      preprocess_doubao_bbox_json cs := by
  by_cases h : containsSeq "bbox".data cs = true
  · have hout := preprocess_no_pat cs h
    by_cases h2 : containsSeq "bbox".data (preprocess_doubao_bbox_json cs) = true
    · generalize hg : preprocess_doubao_bbox_json cs = out at hout h2 ⊢
      unfold preprocess_doubao_bbox_json
      rw [h2]
      simp only [if_true]
      exact subLoopN_of_no_pat _ _ hout
    · rw [Bool.not_eq_true] at h2
      exact preprocess_id_of_no_bbox _ h2
  · rw [Bool.not_eq_true] at h
    rw [preprocess_id_of_no_bbox cs h, preprocess_id_of_no_bbox cs h]

/-- C10 counterexample: the claim promises that the output of
`preprocess_doubao_bbox_json` never contains two digit runs separated only
by whitespace, for EVERY input.  The input `"12 34"` does not contain the
substring `bbox`, so the function returns it unchanged — and the unchanged
output still contains `12 34`, two digit runs separated by a space.  The
no-pattern guarantee only holds for inputs containing `bbox` (the inputs on
which the substitution loop actually runs). -/
theorem claimC10_counterexample :
    preprocess_doubao_bbox_json "12 34".data = "12 34".data ∧
    hasDigitWsDigit (preprocess_doubao_bbox_json "12 34".data) = true := by
  constructor
  · exact preprocess_id_of_no_bbox _ (by decide)
  · rw [preprocess_id_of_no_bbox _ (by decide)]
    decide

/-- C10 (amended): `preprocess_doubao_bbox_json` is the identity on every
string that does not contain the substring `bbox`; it is idempotent on every
string; and on every string that DOES contain `bbox` its output has no two
digit runs separated only by whitespace (no match of `\d+\s+\d+`). -/
theorem claimC10_preprocess_properties (s1 s2 s3 : List Char)
    (h1 : containsSeq "bbox".data s1 = false)
    (h3 : containsSeq "bbox".data s3 = true) :
    preprocess_doubao_bbox_json s1 = s1 ∧
    preprocess_doubao_bbox_json (preprocess_doubao_bbox_json s2) =
      preprocess_doubao_bbox_json s2 ∧
    hasDigitWsDigit (preprocess_doubao_bbox_json s3) = false :=
  ⟨preprocess_id_of_no_bbox s1 h1, preprocess_idem s2, preprocess_no_pat s3 h3⟩

/-- Witness for C10 at concrete strings: `"hello 1"` has no `bbox`
substring; the doubao-style payload `{"bbox": [1 2 3 4]}` has one. -/
theorem claimC10_witness :
    containsSeq "bbox".data "hello 1".data = false ∧
    containsSeq "bbox".data "\x7b\"bbox\": [1 2 3 4]\x7d".data = true ∧
    (preprocess_doubao_bbox_json "hello 1".data = "hello 1".data ∧
     preprocess_doubao_bbox_json
        (preprocess_doubao_bbox_json "\x7b\"bbox\": [1 2 3 4]\x7d".data) =
       preprocess_doubao_bbox_json "\x7b\"bbox\": [1 2 3 4]\x7d".data ∧
     hasDigitWsDigit
        (preprocess_doubao_bbox_json "\x7b\"bbox\": [1 2 3 4]\x7d".data) = false) :=
  ⟨by decide, by decide,
   claimC10_preprocess_properties _ _ _ (by decide) (by decide)⟩

end PyMidscene
